import Mathlib

/-! mcat-ras: the geometry ingestion and upsert pipeline (`pgdb/tools.go`)

A shallow embedding of `upsertModel`, `upsertRiver`, `upsertModelInfo` and
`upsertModelGeometry` together with the statements of `pgdb/queries.go`.

* The relational store is a list of rows.  Every upsert statement of
  `queries.go` sets every column of its row from its parameters, so a row is
  its store-assigned identifier plus the parameter tuple last written to it;
  the `ON CONFLICT` target of the statement is its natural key.
* A transaction works on a private copy of the store and records every step
  it performs in a trace.  `Commit` publishes the copy, the deferred
  `Rollback` discards it.
* What the Go code obtains from collaborators outside `pgdb` (the model
  parser, `strconv.ParseFloat`, the store refusing a statement, `Commit`
  failing) is a field of `Env`.
* A Go run-time panic (index out of range, failed type assertion, nil
  dereference) is the result `Res.crash`, distinct from a returned error.
-/

set_option linter.unusedSectionVars false

namespace McatRas

/-! ## Go standard-library helpers -/

/-- Pieces of a character list between occurrences of `sep`. -/
def splitChars (sep : Char) : List Char → List (List Char)
  | [] => [[]]
  | c :: cs =>
    if c = sep then [] :: splitChars sep cs
    else
      match splitChars sep cs with
      | [] => [[c]]
      | p :: ps => (c :: p) :: ps

/-- Go `strings.Split(s, sep)` for a one-character separator. -/
def stringsSplit (s : String) (sep : Char) : List String :=
  (splitChars sep s.data).map String.mk

/-- Go `unicode.IsSpace`. -/
def isSpace (c : Char) : Bool :=
  let n := c.toNat
  (9 ≤ n ∧ n ≤ 13) || n = 32 || n = 133 || n = 160 || n = 5760 ||
  (8192 ≤ n ∧ n ≤ 8202) || n = 8232 || n = 8233 || n = 8239 || n = 8287 || n = 12288

/-- Go `strings.TrimSpace`. -/
def trimSpace (s : String) : String :=
  String.mk (((s.data.dropWhile isSpace).reverse.dropWhile isSpace).reverse)

/-- Go `filepath.Base` with `/` as the path separator. -/
def filepathBase (path : String) : String :=
  if path.data = [] then "."
  else
    let stripped := path.data.reverse.dropWhile (fun c => c = '/')
    let last := (stripped.takeWhile (fun c => c ≠ '/')).reverse
    if last = [] then "/" else String.mk last

/-- Go `filepath.Ext`: the suffix starting at the last dot of the final path element. -/
def filepathExt (path : String) : String :=
  let seg := path.data.reverse.takeWhile (fun c => c ≠ '/')
  if '.' ∈ seg then String.mk ('.' :: (seg.takeWhile (fun c => c ≠ '.')).reverse) else ""

/-- Go `strings.TrimSuffix`. -/
def trimSuffix (s suffix : String) : String :=
  if suffix.data.isSuffixOf s.data then String.mk (s.data.take (s.data.length - suffix.data.length))
  else s

/-- Value of a string of decimal digits; `none` when another character occurs. -/
def digitsVal (cs : List Char) : Option Nat :=
  if cs.all Char.isDigit then some (cs.foldl (fun n c => 10 * n + (c.toNat - 48)) 0) else none

/-- A decimal number `mantissa / 10 ^ scale`, kept with no trailing zero in its fraction,
so that equal numbers are equal records. -/
structure Decimal where
  mantissa : Int
  scale : Nat
  deriving DecidableEq, Repr

/-- An unsigned decimal numeral `ddd`, `ddd.ddd`, `ddd.` or `.ddd` read exactly. -/
def parseUnsigned (cs : List Char) : Option Decimal :=
  match splitChars '.' cs with
  | [i] => if i = [] then none else (digitsVal i).map (fun n => ⟨(n : Int), 0⟩)
  | [i, f] =>
    if i = [] ∧ f = [] then none
    else
      let frac := (f.reverse.dropWhile (fun c => c = '0')).reverse
      match digitsVal i, digitsVal f with
      | some _, some _ => (digitsVal (i ++ frac)).map (fun n => ⟨(n : Int), frac.length⟩)
      | _, _ => none
  | _ => none

/-- A reading of `strconv.ParseFloat` on its plainest inputs: optionally signed decimal
numerals without exponent, taken at their exact value; every other string is refused.
It instantiates `Env.parseFloat` in concrete runs. -/
def parseDecimal (s : String) : Option Decimal :=
  match s.data with
  | '-' :: cs => (parseUnsigned cs).map (fun d => ⟨-d.mantissa, d.scale⟩)
  | '+' :: cs => parseUnsigned cs
  | cs => parseUnsigned cs

/-! ## Data handed over by the model parser (`ras` package) -/

/-- Encoded geometry of a feature (`[]uint8`). -/
abbrev Geometry := List Nat

/-- A dynamically typed attribute value (`interface{}`): either a Go `string`, or a value
of another type, kept through its rendering under the `%s` verb of `fmt.Sprintf`. -/
inductive FieldVal where
  | str (s : String)
  | other (rendered : String)
  deriving DecidableEq, Repr

/-- One feature: `ras.VectorFeature`. -/
structure VectorFeature where
  FeatureName : String
  Fields : List (String × FieldVal)
  Geometry : Geometry
  deriving DecidableEq, Repr

/-- Indexing the attribute map: `f.Fields[name]`, `none` being the nil interface. -/
def VectorFeature.field (f : VectorFeature) (name : String) : Option FieldVal :=
  f.Fields.lookup name

/-- The feature classes of one geometry file that the pipeline reads. -/
structure Features where
  Rivers : List VectorFeature := []
  XS : List VectorFeature := []
  Banks : List VectorFeature := []
  StorageAreas : List VectorFeature := []
  TwoDAreas : List VectorFeature := []
  Connections : List VectorFeature := []
  BreakLines : List VectorFeature := []
  BCLines : List VectorFeature := []
  deriving DecidableEq, Repr

/-- One geometry-file descriptor of `rm.Metadata.GeomFiles`. -/
structure GeometryFile where
  Path : String
  FileExt : String
  GeomTitle : String
  ProgramVersion : String
  Description : String
  deriving DecidableEq, Repr

/-- What the pipeline observes of a `ras.RasModel`: its type tag, the result of
`json.Marshal(rm.Metadata)`, the geometry-file descriptors, `rm.IsGeospatial()` and the
result of `rm.GeospatialData(crs)` (the map `geodata.Features`). -/
structure RasModel where
  Type_ : String
  metadataJSON : Option String
  GeomFiles : List GeometryFile
  isGeospatial : Bool
  geospatialData : Option (List (String × Features))
  deriving DecidableEq, Repr

/-- Ingestion provenance, `ETLMetaData`. -/
structure ETLMetaData where
  ModelName : String
  SourcePath : String
  DestinationPath : String := ""
  ProjectionSourcePath : String := ""
  deriving DecidableEq, Repr

/-- Go `sql.NullFloat64`. -/
structure NullFloat64 where
  Float64 : Int
  Valid : Bool
  deriving DecidableEq, Repr

/-- The `version` argument of the geometry-file upsert: `var version interface{}`. -/
inductive VersionArg where
  | str (s : String)
  | nullFloat (n : NullFloat64)
  deriving DecidableEq, Repr

/-- A parameter is sent as SQL NULL when it is a `NullFloat64` that is not valid. -/
def VersionArg.isNull : VersionArg → Bool
  | .str _ => false
  | .nullFloat n => !n.Valid

/-! ## Statements and store (`queries.go`) -/

/-- The tables written by the pipeline. -/
inductive Table where
  | model | geometryFiles | rivers | xs | banks | areas | connections | breaklines | bclines
  deriving DecidableEq, Repr

/-- The upsert statements of `queries.go` with their positional parameters.  The type `σ`
is the store's numeric type of a station. -/
inductive Stmt (σ : Type) where
  | upsertModel (collectionID : Nat) (name type s3Key modelMeta : String) (etlMeta : ETLMetaData)
  | upsertGeometry (modelID : Nat) (path ext title : String) (version : VersionArg)
      (description : String)
  | upsertRivers (geometryFileID : Nat) (riverName reachName : String) (geom : Geometry)
  | upsertXS (riverID : Nat) (station : σ) (cutLineProfileMatch : Option FieldVal)
      (geom : Geometry)
  | upsertBanks (xsID : Nat) (station : σ) (geom : Geometry)
  | upsertAreas (geometryFileID : Nat) (areaName : String) (is2d : Bool) (geom : Geometry)
  | upsertConnections (geometryFileID : Nat) (connectionName : String)
      (upArea dnArea : Option FieldVal) (geom : Geometry)
  | upsertBreaklines (geometryFileID : Nat) (breaklineName : String) (geom : Geometry)
  | upsertBClines (areaID : Nat) (bclineName : String) (geom : Geometry)
  deriving DecidableEq, Repr

/-- The natural key of a row: the `ON CONFLICT` target of the statement writing it. -/
inductive Key (σ : Type) where
  | model (s3Key : String)
  | geometryFile (path : String)
  | river (geometryFileID : Nat) (riverName reachName : String)
  | xs (riverID : Nat) (station : σ)
  | bank (xsID : Nat) (station : σ)
  | area (geometryFileID : Nat) (areaName : String)
  | connection (geometryFileID : Nat) (connectionName : String)
  | breakline (geometryFileID : Nat) (breaklineName : String)
  | bcline (areaID : Nat) (bclineName : String)
  deriving DecidableEq, Repr

variable {σ : Type}

/-- The conflict target of each statement. -/
def Stmt.key : Stmt σ → Key σ
  | .upsertModel _ _ _ s3Key _ _ => .model s3Key
  | .upsertGeometry _ path _ _ _ _ => .geometryFile path
  | .upsertRivers g r h _ => .river g r h
  | .upsertXS r st _ _ => .xs r st
  | .upsertBanks x st _ => .bank x st
  | .upsertAreas g n _ _ => .area g n
  | .upsertConnections g n _ _ _ => .connection g n
  | .upsertBreaklines g n _ => .breakline g n
  | .upsertBClines a n _ => .bcline a n

/-- The table a natural key belongs to. -/
def Key.table : Key σ → Table
  | .model _ => .model
  | .geometryFile _ => .geometryFiles
  | .river _ _ _ => .rivers
  | .xs _ _ => .xs
  | .bank _ _ => .banks
  | .area _ _ => .areas
  | .connection _ _ => .connections
  | .breakline _ _ => .breaklines
  | .bcline _ _ => .bclines

/-- A stored row: the store-assigned identifier and the column values last written. -/
structure Row (σ : Type) where
  id : Nat
  cols : Stmt σ
  deriving DecidableEq, Repr

/-- The natural key of a stored row. -/
def Row.key (r : Row σ) : Key σ := r.cols.key

/-- The relational store. -/
abbrev Store (σ : Type) := List (Row σ)

/-- Identifier of the row with natural key `k`, when there is one. -/
def Store.idOf [DecidableEq σ] (db : Store σ) (k : Key σ) : Option Nat :=
  (db.find? (fun r => decide (r.key = k))).map (fun r => r.id)

/-- A fresh identifier for table `t`: one more than every identifier in use there. -/
def Store.nextId (db : Store σ) (t : Table) : Nat :=
  ((db.filter (fun r => decide (r.key.table = t))).map (fun r => r.id)).foldr max 0 + 1

/-- Insert-or-update-on-conflict: `INSERT ... ON CONFLICT (key) DO UPDATE SET ...`, giving
the new store and the identifier of the row written (`RETURNING ..._id`). -/
def Store.upsert [DecidableEq σ] (db : Store σ) (s : Stmt σ) : Store σ × Nat :=
  match db.idOf s.key with
  | some i => (db.map (fun r => if r.key = s.key then { r with cols := s } else r), i)
  | none => (db ++ [⟨db.nextId s.key.table, s⟩], db.nextId s.key.table)

/-- The rows of one table, as pairs of identifier and natural key. -/
def Store.tableKeys (db : Store σ) (t : Table) : List (Nat × Key σ) :=
  (db.filter (fun r => decide (r.key.table = t))).map (fun r => (r.id, r.key))

/-! ## Transactions -/

/-- The wrapped Go errors a run can return, by the call that produced them. -/
inductive Error where
  | sql | parseFloat | newRasModel | geospatialData | json | commit
  deriving DecidableEq, Repr

/-- Outcome of a Go call: a value, a returned error, or a run-time panic. -/
inductive Res (α : Type) where
  | ok (a : α)
  | err (e : Error)
  | crash
  deriving DecidableEq, Repr

/-- The steps of a run that can fail, with what each one gave. -/
inductive Event (σ : Type) where
  | getCollectionID (definitionFile : String) (result : Option Nat)
  | getModelID (definitionFile : String) (result : Option Nat)
  | newRasModel (definitionFile : String) (succeeded : Bool)
  | marshalMetadata (succeeded : Bool)
  | geospatialData (succeeded : Bool)
  | parseFloat (s : String) (succeeded : Bool)
  | stmt (s : Stmt σ) (result : Option Nat)
  | commit (succeeded : Bool)
  deriving DecidableEq, Repr

/-- The step returned an error. -/
def Event.failed : Event σ → Bool
  | .getCollectionID _ r => r.isNone
  | .getModelID _ r => r.isNone
  | .newRasModel _ b => !b
  | .marshalMetadata b => !b
  | .geospatialData b => !b
  | .parseFloat _ b => !b
  | .stmt _ r => r.isNone
  | .commit b => !b

/-- The step is an insert-or-update statement sent to the store. -/
def Event.isWrite : Event σ → Bool
  | .stmt _ _ => true
  | _ => false

/-- State of an open transaction `tx`: its private copy of the store and whether `Commit`
has succeeded. -/
structure TxState (σ : Type) where
  store : Store σ
  committed : Bool

/-- What a computation inside a transaction gives: its result, the state it leaves, and
the steps it performed, in order. -/
structure Out (σ : Type) (α : Type) where
  res : Res α
  st : TxState σ
  events : List (Event σ)

/-- A computation inside a transaction. -/
def TxM (σ : Type) (α : Type) := TxState σ → Out σ α

instance : Monad (TxM σ) where
  pure a := fun st => ⟨.ok a, st, []⟩
  bind m f := fun st =>
    match m st with
    | ⟨.ok a, st1, ev1⟩ => ⟨(f a st1).res, (f a st1).st, ev1 ++ (f a st1).events⟩
    | ⟨.err e, st1, ev1⟩ => ⟨.err e, st1, ev1⟩
    | ⟨.crash, st1, ev1⟩ => ⟨.crash, st1, ev1⟩

/-- A run-time panic. -/
def TxM.panic {α : Type} : TxM σ α := fun st => ⟨.crash, st, []⟩

/-- Collaborators of the pipeline.
* `parseFloat` is `strconv.ParseFloat(·, 64)` followed by the store's reading of the number;
* `rejects db s` says that the store, in state `db`, answers statement `s` with an error;
* `beginOk` and `commitOk` say whether `BeginTxx` and `Commit` succeed;
* `collectionID` is the answer of `getCollectionIDSQL` (the collections table is not
  written by the pipeline);
* `newRasModel` is `ras.NewRasModel`. -/
structure Env (σ : Type) where
  parseFloat : String → Option σ
  rejects : Store σ → Stmt σ → Bool
  beginOk : Bool
  commitOk : Store σ → Bool
  collectionID : String → Option Nat
  newRasModel : String → Option RasModel

section Pipeline

variable [DecidableEq σ]

/-- Send an upsert statement inside the transaction: `tx.Get` / `tx.Exec`. -/
def exec (env : Env σ) (s : Stmt σ) : TxM σ Nat := fun st =>
  if env.rejects st.store s then
    ⟨.err .sql, st, [.stmt s none]⟩
  else
    ⟨.ok (st.store.upsert s).2, { st with store := (st.store.upsert s).1 },
      [.stmt s (some (st.store.upsert s).2)]⟩

/-- Call `tx.Commit()`. -/
def commit (env : Env σ) : TxM σ Unit := fun st =>
  if env.commitOk st.store then
    ⟨.ok (), { st with committed := true }, [.commit true]⟩
  else
    ⟨.err .commit, st, [.commit false]⟩

/-- A call to a collaborator that either yields a value or returns an error: the step is
recorded as `ev`, and a missing value is returned as the error `e`. -/
def TxM.call {α : Type} (ev : Event σ) (e : Error) (r : Option α) : TxM σ α := fun st =>
  match r with
  | some a => ⟨.ok a, st, [ev]⟩
  | none => ⟨.err e, st, [ev]⟩

/-- Go `getCollectionID`. -/
def getCollectionID (env : Env σ) (definitionFile : String) : TxM σ Nat :=
  TxM.call (.getCollectionID definitionFile (env.collectionID definitionFile)) .sql
    (env.collectionID definitionFile)

/-- Go `getModelID`: `SELECT model_inventory_id FROM models.model WHERE s3_key = $1`. -/
def getModelID (definitionFile : String) : TxM σ Nat := fun st =>
  TxM.call (.getModelID definitionFile (st.store.idOf (.model definitionFile))) .sql
    (st.store.idOf (.model definitionFile)) st

/-- Go `ras.NewRasModel`, as called by both entry points. -/
def newRasModel (env : Env σ) (definitionFile : String) : TxM σ RasModel :=
  TxM.call (.newRasModel definitionFile (env.newRasModel definitionFile).isSome) .newRasModel
    (env.newRasModel definitionFile)

/-- Go `strconv.ParseFloat(s, 64)`. -/
def parseFloat (env : Env σ) (s : String) : TxM σ σ :=
  TxM.call (.parseFloat s (env.parseFloat s).isSome) .parseFloat (env.parseFloat s)

/-- Go `json.Marshal(rm.Metadata)`. -/
def marshalMetadata (rm : RasModel) : TxM σ String :=
  TxM.call (.marshalMetadata rm.metadataJSON.isSome) .json rm.metadataJSON

/-- Go `rm.GeospatialData(ac.DestinationCRS)`. -/
def geospatialData (rm : RasModel) : TxM σ (List (String × Features)) :=
  TxM.call (.geospatialData rm.geospatialData.isSome) .geospatialData rm.geospatialData

/-- Go type assertion `v.(string)`, which panics on any other dynamic type and on nil. -/
def assertString (v : Option FieldVal) : TxM σ String :=
  match v with
  | some (.str s) => pure s
  | _ => TxM.panic

/-- Rendering of an `interface{}` under the verb `%s`. -/
def sprintS : Option FieldVal → String
  | some (.str s) => s
  | some (.other rendered) => rendered
  | none => "%!s(<nil>)"

/-- A Go `map[string]int`, most recent assignment first. -/
abbrev IDMap := List (String × Nat)

/-- Go `m[k]`: the zero value when the key is absent. -/
def IDMap.get (m : IDMap) (k : String) : Nat := (m.lookup k).getD 0

/-- Go `m[k] = v`. -/
def IDMap.set (m : IDMap) (k : String) (v : Nat) : IDMap := (k, v) :: m

/-- Go `geodata.Features[geomFileName]`: the zero value when the key is absent. -/
def featuresOf (geodata : List (String × Features)) (geomFileName : String) : Features :=
  (geodata.lookup geomFileName).getD {}

/-- Go `upsertModel`. -/
def upsertModel (env : Env σ) (rm : RasModel) (definitionFile : String) (collectionID : Nat) :
    TxM σ Nat := do
  let projFileName := filepathBase definitionFile
  let modelName := trimSuffix projFileName (filepathExt projFileName)
  let etlMeta : ETLMetaData := { ModelName := modelName, SourcePath := definitionFile }
  let modelMeta ← marshalMetadata rm
  exec env (.upsertModel collectionID modelName rm.Type_ definitionFile modelMeta etlMeta)

/-- Go `upsertRiver`. -/
def upsertRiver (env : Env σ) (river : VectorFeature) (geometryFileID : Nat) : TxM σ Nat :=
  let riverReachName := river.FeatureName
  let riverReach := stringsSplit riverReachName ','
  match riverReach[0]? with
  | none => TxM.panic
  | some r0 =>
    let riverName := trimSpace r0
    match riverReach[1]? with
    | none => TxM.panic
    | some r1 =>
      let reachName := trimSpace r1
      exec env (.upsertRivers geometryFileID riverName reachName river.Geometry)

/-- The argument `version` built from `geometryFile.ProgramVersion`. -/
def versionArg (programVersion : String) : VersionArg :=
  if programVersion = "" then .nullFloat { Float64 := 0, Valid := false }
  else .str programVersion

/-- The loop "Add all rivers". -/
def addRivers (env : Env σ) (geometryFileID : Nat) (rivers : List VectorFeature) :
    TxM σ IDMap :=
  rivers.foldlM (fun riverIDMap river => do
    let riverID ← upsertRiver env river geometryFileID
    pure (riverIDMap.set river.FeatureName riverID)) []

/-- The loop "Add all XS". -/
def addXS (env : Env σ) (riverIDMap : IDMap) (xss : List VectorFeature) : TxM σ IDMap :=
  xss.foldlM (fun xsIDMap xs => do
    let riverReach := xs.field "RiverReachName"
    let cutLineProfileMatch := xs.field "CutLineProfileMatch"
    let xsStation ← parseFloat env xs.FeatureName
    let riverID := riverIDMap.get (← assertString riverReach)
    let xsID ← exec env (.upsertXS riverID xsStation cutLineProfileMatch xs.Geometry)
    let riverReachXSName := sprintS riverReach ++ "-" ++ xs.FeatureName
    pure (xsIDMap.set riverReachXSName xsID)) []

/-- The loop "Add all Banks". -/
def addBanks (env : Env σ) (xsIDMap : IDMap) (banks : List VectorFeature) : TxM σ Unit :=
  banks.foldlM (fun _ banks => do
    let riverReachXSName :=
      sprintS (banks.field "RiverReachName") ++ "-" ++ (← assertString (banks.field "xsName"))
    let xsID := xsIDMap.get riverReachXSName
    let bankStation ← parseFloat env banks.FeatureName
    let _ ← exec env (.upsertBanks xsID bankStation banks.Geometry)
    pure ()) ()

/-- The loops "Add all Storage Areas" (`is2d = false`) and "Add all 2D Areas"
(`is2d = true`), both assigning into `areasIDMap`. -/
def addAreas (env : Env σ) (geometryFileID : Nat) (is2d : Bool) (areasIDMap : IDMap)
    (areas : List VectorFeature) : TxM σ IDMap :=
  areas.foldlM (fun areasIDMap area => do
    let aID ← exec env (.upsertAreas geometryFileID area.FeatureName is2d area.Geometry)
    pure (areasIDMap.set area.FeatureName aID)) areasIDMap

/-- The loop "Add all connections". -/
def addConnections (env : Env σ) (geometryFileID : Nat) (conns : List VectorFeature) :
    TxM σ Unit :=
  conns.foldlM (fun _ conn => do
    let _ ← exec env (.upsertConnections geometryFileID conn.FeatureName
      (conn.field "Up Area") (conn.field "Dn Area") conn.Geometry)
    pure ()) ()

/-- The loop "Add all breakLines". -/
def addBreakLines (env : Env σ) (geometryFileID : Nat) (bls : List VectorFeature) :
    TxM σ Unit :=
  bls.foldlM (fun _ bl => do
    let _ ← exec env (.upsertBreaklines geometryFileID bl.FeatureName bl.Geometry)
    pure ()) ()

/-- The loop "Add all boundary condition lines". -/
def addBCLines (env : Env σ) (areasIDMap : IDMap) (bcls : List VectorFeature) : TxM σ Unit :=
  bcls.foldlM (fun _ bcl => do
    let areaID := areasIDMap.get (← assertString (bcl.field "Area"))
    let _ ← exec env (.upsertBClines areaID bcl.FeatureName bcl.Geometry)
    pure ()) ()

/-- The geometry-file upsert at the head of the loop body of `upsertModelGeometry`. -/
def geometryStmt (modelID : Nat) (geometryFile : GeometryFile) : Stmt σ :=
  .upsertGeometry modelID geometryFile.Path geometryFile.FileExt geometryFile.GeomTitle
    (versionArg geometryFile.ProgramVersion) geometryFile.Description

/-- The feature passes of one geometry file, after its own row is written. -/
def upsertFeatures (env : Env σ) (geometryFileID : Nat) (features : Features) : TxM σ Unit := do
  let riverIDMap ← addRivers env geometryFileID features.Rivers
  let xsIDMap ← addXS env riverIDMap features.XS
  addBanks env xsIDMap features.Banks
  let areasIDMap ← addAreas env geometryFileID false [] features.StorageAreas
  let areasIDMap ← addAreas env geometryFileID true areasIDMap features.TwoDAreas
  addConnections env geometryFileID features.Connections
  addBreakLines env geometryFileID features.BreakLines
  addBCLines env areasIDMap features.BCLines

/-- The body of the loop "Iterate over geometry files" of `upsertModelGeometry`. -/
def upsertGeometryFile (env : Env σ) (modelID : Nat) (geodata : List (String × Features))
    (geometryFile : GeometryFile) : TxM σ Unit := do
  let geometryFileID ← exec env (geometryStmt modelID geometryFile)
  let geomFileName := filepathBase geometryFile.Path
  let features := featuresOf geodata geomFileName
  upsertFeatures env geometryFileID features

/-- The part of `upsertModelInfo` that runs inside the transaction. -/
def modelInfoTx (env : Env σ) (definitionFile : String) : TxM σ Unit := do
  let collectionID ← getCollectionID env definitionFile
  let rm ← newRasModel env definitionFile
  let _ ← upsertModel env rm definitionFile collectionID
  commit env

/-- The part of `upsertModelGeometry` that runs inside the transaction. -/
def modelGeometryTx (env : Env σ) (definitionFile : String) : TxM σ Unit := do
  let modelID ← getModelID definitionFile
  let rm ← newRasModel env definitionFile
  if rm.isGeospatial then
    let geodata ← geospatialData rm
    rm.GeomFiles.foldlM (fun _ geometryFile =>
      upsertGeometryFile env modelID geodata geometryFile) ()
    commit env
  else
    pure ()

/-- What a request leaves behind: what the entry point returned, the steps it performed,
and the store visible afterwards. -/
structure RunResult (σ : Type) where
  outcome : Res Unit
  trace : List (Event σ)
  db : Store σ

/-- An entry point's frame: `db.BeginTxx`, `defer tx.Rollback()`, the body.  When
`BeginTxx` fails `tx` is nil and evaluating `tx.Rollback` for the `defer` dereferences it.
Otherwise the body runs on a copy of the store, and the deferred `Rollback` discards the
copy unless `Commit` has succeeded. -/
def runTx (env : Env σ) (db : Store σ) (body : TxM σ Unit) : RunResult σ :=
  if env.beginOk then
    let r := body { store := db, committed := false }
    { outcome := r.res, trace := r.events, db := if r.st.committed then r.st.store else db }
  else
    { outcome := .crash, trace := [], db := db }

/-- Go `upsertModelInfo`. -/
def upsertModelInfo (env : Env σ) (definitionFile : String) (db : Store σ) : RunResult σ :=
  runTx env db (modelInfoTx env definitionFile)

/-- Go `upsertModelGeometry`. -/
def upsertModelGeometry (env : Env σ) (definitionFile : String) (db : Store σ) : RunResult σ :=
  runTx env db (modelGeometryTx env definitionFile)

end Pipeline

/-! ## Concrete inputs -/

/-- A store that accepts every statement and commit, with `parseDecimal` for
`strconv.ParseFloat`, serving the parsed model `rm` for every source path. -/
def envOf (rm : RasModel) : Env Decimal where
  parseFloat := parseDecimal
  rejects := fun _ _ => false
  beginOk := true
  commitOk := fun _ => true
  collectionID := fun _ => some 7
  newRasModel := fun _ => some rm

/-- Source path of the example model. -/
def demoPath : String := "/models/demo/demo.prj"

/-- A store holding only the row of the example model. -/
def demoDb : Store Decimal :=
  [⟨1, .upsertModel 7 "demo" "RAS" demoPath "\x7b\x7d" { ModelName := "demo", SourcePath := demoPath }⟩]

/-- The geometry file of the example model. -/
def demoGeom : GeometryFile :=
  { Path := "/models/demo/demo.g01", FileExt := ".g01", GeomTitle := "Existing",
    ProgramVersion := "", Description := "" }

/-- A geospatial model whose only geometry file carries the features `fs`. -/
def demoModel (fs : Features) : RasModel :=
  { Type_ := "RAS", metadataJSON := some "\x7b\x7d", GeomFiles := [demoGeom],
    isGeospatial := true, geospatialData := some [("demo.g01", fs)] }

/-- A model without geospatial capability. -/
def flatModel : RasModel :=
  { Type_ := "RAS", metadataJSON := some "\x7b\x7d", GeomFiles := [demoGeom],
    isGeospatial := false, geospatialData := none }

/-- A model whose metadata cannot be marshalled. -/
def unmarshallableModel : RasModel :=
  { Type_ := "RAS", metadataJSON := none, GeomFiles := [], isGeospatial := false,
    geospatialData := none }

/-- The river "Main River, Reach 1". -/
def mainRiver : VectorFeature :=
  { FeatureName := "Main River, Reach 1", Fields := [], Geometry := [1] }

/-- A river whose name has no comma. -/
def commalessRiver : VectorFeature :=
  { FeatureName := "Main River", Fields := [], Geometry := [1] }

/-- The cross-section "100.0" on "Main River, Reach 1". -/
def xs100 : VectorFeature :=
  { FeatureName := "100.0", Fields := [("RiverReachName", .str "Main River, Reach 1")],
    Geometry := [2] }

/-- A cross-section on "Main River, Reach 1" whose name is not a number. -/
def xsNamed : VectorFeature :=
  { FeatureName := "weir", Fields := [("RiverReachName", .str "Main River, Reach 1")],
    Geometry := [2] }

/-- The bank "50.0" of cross-section "100.0" on "Main River, Reach 1". -/
def bank50 : VectorFeature :=
  { FeatureName := "50.0",
    Fields := [("RiverReachName", .str "Main River, Reach 1"), ("xsName", .str "100.0")],
    Geometry := [3] }

/-- A single river, without a comma in its name. -/
def loneCommalessRiver : Features := { Rivers := [commalessRiver] }

/-- The scenario of one river, one cross-section on it and one bank on that. -/
def scenarioFeatures : Features := { Rivers := [mainRiver], XS := [xs100], Banks := [bank50] }

/-- A store that already holds rows of another model, so that the identifiers it assigns
next differ from table to table: 4 for a geometry file, 3 for a river, 6 for a
cross-section, 2 for a bank. -/
def busyDb : Store Decimal :=
  demoDb ++
    [⟨3, .upsertGeometry 9 "/models/other/other.g01" ".g01" "Other" (.str "5.07") ""⟩,
     ⟨2, .upsertRivers 3 "Other River" "Upper" [9]⟩,
     ⟨5, .upsertXS 2 ⟨250, 0⟩ none [9]⟩,
     ⟨1, .upsertBanks 5 ⟨10, 0⟩ [9]⟩]

/-- Two reaches whose labels differ by a trailing hyphen. -/
def hyphenRivers : List VectorFeature :=
  [{ FeatureName := "A, r", Fields := [], Geometry := [1] },
   { FeatureName := "A, r-", Fields := [], Geometry := [2] }]

/-- The cross-section "-1" on reach "A, r". -/
def xsMinusOne : VectorFeature :=
  { FeatureName := "-1", Fields := [("RiverReachName", .str "A, r")], Geometry := [3] }

/-- The cross-section "1" on reach "A, r-". -/
def xsPlusOne : VectorFeature :=
  { FeatureName := "1", Fields := [("RiverReachName", .str "A, r-")], Geometry := [4] }

/-- A bank of cross-section "-1" on reach "A, r". -/
def bankOfMinusOne : VectorFeature :=
  { FeatureName := "0.5", Fields := [("RiverReachName", .str "A, r"), ("xsName", .str "-1")],
    Geometry := [5] }

/-- Two cross-sections with different reach and name filed under the same key "A, r--1",
and a bank of the first. -/
def hyphenFeatures : Features :=
  { Rivers := hyphenRivers, XS := [xsMinusOne, xsPlusOne], Banks := [bankOfMinusOne] }

/-- A bank naming a cross-section "200.0" that the file does not have. -/
def orphanBank : VectorFeature :=
  { FeatureName := "50.0",
    Fields := [("RiverReachName", .str "Main River, Reach 1"), ("xsName", .str "200.0")],
    Geometry := [3] }

/-- One river, one cross-section on it, and a bank of a cross-section that is absent. -/
def orphanFeatures : Features := { Rivers := [mainRiver], XS := [xs100], Banks := [orphanBank] }

/-- The store of `envOf` with foreign keys enforced: a cross-section, a bank or a
boundary-condition line whose parent identifier is not in the parent table is refused. -/
def fkEnv (rm : RasModel) : Env Decimal :=
  { envOf rm with
    rejects := fun db s =>
      match s with
      | .upsertXS riverID _ _ _ =>
        !(db.any (fun r => decide (r.key.table = .rivers) && decide (r.id = riverID)))
      | .upsertBanks xsID _ _ =>
        !(db.any (fun r => decide (r.key.table = .xs) && decide (r.id = xsID)))
      | .upsertBClines areaID _ _ =>
        !(db.any (fun r => decide (r.key.table = .areas) && decide (r.id = areaID)))
      | _ => false }

/-- A storage area "A", a 2-D area "B" and a boundary-condition line on area "A". -/
def areaFeatures : Features :=
  { StorageAreas := [{ FeatureName := "A", Fields := [], Geometry := [1] }],
    TwoDAreas := [{ FeatureName := "B", Fields := [], Geometry := [2] }],
    BCLines := [{ FeatureName := "inflow", Fields := [("Area", .str "A")], Geometry := [3] }] }

/-- One river followed by a cross-section with a non-numeric name. -/
def badXSFeatures : Features := { Rivers := [mainRiver], XS := [xsNamed] }

/-- A river without a comma followed by a cross-section with a non-numeric name. -/
def commalessFeatures : Features := { Rivers := [commalessRiver], XS := [xsNamed] }

/-! ## Predicates on transaction computations -/

/-- A computation that never commits and in which a step that returns an error ends the
computation with that error: its steps contain no successful commit, the commit flag is
untouched, and either an error is returned or none of its steps failed. -/
def Pre {α : Type} (m : TxM σ α) : Prop :=
  ∀ st, (m st).st.committed = st.committed ∧ Event.commit true ∉ (m st).events ∧
    ((∃ e, (m st).res = .err e) ∨ ∀ ev ∈ (m st).events, ev.failed = false)

/-- A computation that may commit as its last step: either it returns an error, has not
committed and recorded no successful commit, or none of its steps failed. -/
def Post {α : Type} (m : TxM σ α) : Prop :=
  ∀ st, ((∃ e, (m st).res = .err e) ∧ (m st).st.committed = st.committed ∧
        Event.commit true ∉ (m st).events) ∨
      ∀ ev ∈ (m st).events, ev.failed = false

/-- A computation in which a successful `Commit` can only be the last step: if it has
committed, or recorded a successful commit, then it returned a value. -/
def CommitLast {α : Type} (m : TxM σ α) : Prop :=
  ∀ st, ((m st).st.committed = true → st.committed = true ∨ ∃ a, (m st).res = .ok a) ∧
    (Event.commit true ∈ (m st).events → ∃ a, (m st).res = .ok a)

/-- Identifier and natural key of every row, in store order. -/
def Store.skel (db : Store σ) : List (Nat × Key σ) := db.map (fun r => (r.id, r.key))

/-- Every natural key known to `db` is known to `db2` under the same identifier. -/
def Store.le [DecidableEq σ] (db db2 : Store σ) : Prop :=
  ∀ k i, db.idOf k = some i → db2.idOf k = some i

/-- A computation that only adds keys to the store and whose answered statements are
recorded faithfully: the identifier returned for a statement is the identifier its
natural key has in the store the computation leaves. -/
def Faithful [DecidableEq σ] {α : Type} (m : TxM σ α) : Prop :=
  ∀ st, st.store.le (m st).st.store ∧
    ∀ s i, Event.stmt s (some i) ∈ (m st).events → (m st).st.store.idOf s.key = some i

/-- Replaying `m1` as `m2` on a store that already knows every key `m1` left behind:
the replay changes no identifier and no key, and when it returns a value it is the value
`m1` returned. -/
def Sim [DecidableEq σ] {α : Type} (m1 m2 : TxM σ α) : Prop :=
  ∀ st1 a, (m1 st1).res = .ok a → ∀ st2, (m1 st1).st.store.le st2.store →
    (m2 st2).st.store.skel = st2.store.skel ∧ ∀ b, (m2 st2).res = .ok b → b = a

/-- The same program text run against two sets of collaborators `env1` and `env2`: the
two computations are built alike from returns, panics, sequencing, collaborator calls
with the same answer, the same statements and the same model-ID lookups. -/
inductive Rel [DecidableEq σ] (env1 env2 : Env σ) : {α : Type} → TxM σ α → TxM σ α → Prop
  | pure {α : Type} (a : α) : Rel env1 env2 (pure a : TxM σ α) (pure a)
  | panic {α : Type} : Rel env1 env2 (TxM.panic : TxM σ α) TxM.panic
  | bind {α β : Type} {m1 m2 : TxM σ α} {f1 f2 : α → TxM σ β} :
      Rel env1 env2 m1 m2 → (∀ a, Rel env1 env2 (f1 a) (f2 a)) →
      Rel env1 env2 (m1 >>= f1) (m2 >>= f2)
  | call {α : Type} (ev1 ev2 : Event σ) (e : Error) (r : Option α) :
      ev1.isWrite = false → ev2.isWrite = false →
      Rel env1 env2 (TxM.call ev1 e r) (TxM.call ev2 e r)
  | exec (s : Stmt σ) : Rel env1 env2 (exec env1 s) (exec env2 s)
  | getModelID (f : String) : Rel env1 env2 (getModelID f) (getModelID f)
  | commit : Rel env1 env2 (commit env1) (commit env2)

/-- The statement `upsertRiver` sends for a river of geometry file `g`, when the
river's name splits into at least two parts. -/
def riverStmt (g : Nat) (river : VectorFeature) : Option (Stmt σ) :=
  match (stringsSplit river.FeatureName ',')[0]?, (stringsSplit river.FeatureName ',')[1]? with
  | some r0, some r1 => some (.upsertRivers g (trimSpace r0) (trimSpace r1) river.Geometry)
  | _, _ => none

/-- The key under which the loop "Add all XS" files a cross-section in `xsIDMap`. -/
def xsKey (xs : VectorFeature) : String :=
  sprintS (xs.field "RiverReachName") ++ "-" ++ xs.FeatureName

/-- The key a bank looks up in `xsIDMap`, `xsName` being its attribute of that name. -/
def bankKey (bank : VectorFeature) (xsName : String) : String :=
  sprintS (bank.field "RiverReachName") ++ "-" ++ xsName

/-- The features of a geometry file as sources of statements, by feature class. -/
inductive Source where
  | geometryFile (gf : GeometryFile)
  | river (f : VectorFeature)
  | xs (f : VectorFeature)
  | bank (f : VectorFeature)
  | storageArea (f : VectorFeature)
  | twoDArea (f : VectorFeature)
  | connection (f : VectorFeature)
  | breakline (f : VectorFeature)
  | bcline (f : VectorFeature)
  deriving DecidableEq, Repr

/-- The processing order as the specification words it: the geometry file, then all
rivers, all cross-sections, all banks, all storage areas, all 2-D areas, all connections,
all breaklines and all boundary-condition lines, each group in input order. -/
def expectedOrder (gf : GeometryFile) (features : Features) : List Source :=
  .geometryFile gf ::
    (features.Rivers.map .river ++ (features.XS.map .xs ++ (features.Banks.map .bank ++
      (features.StorageAreas.map .storageArea ++ (features.TwoDAreas.map .twoDArea ++
        (features.Connections.map .connection ++ (features.BreakLines.map .breakline ++
          features.BCLines.map .bcline)))))))

/-- Statement `s` is the upsert of the given source for model `modelID` and geometry file
`g`: every column is the source's, the parent identifier of a cross-section, bank or
boundary-condition line being left open. -/
def Issues (env : Env σ) (modelID g : Nat) : Source → Stmt σ → Prop
  | .geometryFile gf, s => s = geometryStmt modelID gf
  | .river f, s => riverStmt g f = some s
  | .xs f, s => ∃ riverID station, env.parseFloat f.FeatureName = some station ∧
      s = .upsertXS riverID station (f.field "CutLineProfileMatch") f.Geometry
  | .bank f, s => ∃ xsID station, env.parseFloat f.FeatureName = some station ∧
      s = .upsertBanks xsID station f.Geometry
  | .storageArea f, s => s = .upsertAreas g f.FeatureName false f.Geometry
  | .twoDArea f, s => s = .upsertAreas g f.FeatureName true f.Geometry
  | .connection f, s => s = .upsertConnections g f.FeatureName (f.field "Up Area")
      (f.field "Dn Area") f.Geometry
  | .breakline f, s => s = .upsertBreaklines g f.FeatureName f.Geometry
  | .bcline f, s => ∃ areaID, s = .upsertBClines areaID f.FeatureName f.Geometry

/-- The table a source is written to. -/
def Source.table : Source → Table
  | .geometryFile _ => .geometryFiles
  | .river _ => .rivers
  | .xs _ => .xs
  | .bank _ => .banks
  | .storageArea _ => .areas
  | .twoDArea _ => .areas
  | .connection _ => .connections
  | .breakline _ => .breaklines
  | .bcline _ => .bclines

/-- Every step of the computation satisfies `Q`, whatever the state it starts from and
whatever its result. -/
def Emits {α : Type} (Q : Event σ → Prop) (m : TxM σ α) : Prop :=
  ∀ st, ∀ ev ∈ (m st).events, Q ev

/-- The step is not a statement on the boundary-condition lines table. -/
def NotBCLine (ev : Event σ) : Prop :=
  ∀ s r, ev = .stmt s r → s.key.table ≠ .bclines

/-- Lines 45 and 46 of `upsertModel`: the model name derived from the source path. -/
def modelName (definitionFile : String) : String :=
  trimSuffix (filepathBase definitionFile) (filepathExt (filepathBase definitionFile))

/-- The final path segment as the specification words it: the last non-empty piece of
the path between slashes, trailing slashes being ignored; empty when there is none. -/
def finalSegment (path : String) : String :=
  String.mk (((splitChars '/' path.data).filter (fun seg => !seg.isEmpty)).getLast?.getD [])

/-- A segment with its file extension removed as the specification words it: what
precedes the last dot of the segment, or the whole segment when it has no dot. -/
def stripExtension (seg : String) : String :=
  if '.' ∈ seg.data then String.mk (((seg.data.reverse.dropWhile (fun c => c ≠ '.')).drop 1).reverse)
  else seg

/-- A model whose metadata marshals to an empty object, for runs of `upsertModel`. -/
def plainModel : RasModel :=
  { Type_ := "RAS", metadataJSON := some "\x7b\x7d", GeomFiles := [], isGeospatial := false,
    geospatialData := none }

/-- The source path of the documented example request. -/
def churchPath : String := "/models/ras/CHURCH HOUSE GULLY/CHURCH HOUSE GULLY.prj"

/-- A bank labelled "A, r-" naming a cross-section "1" that the file does not have. -/
def hyphenBank : VectorFeature :=
  { FeatureName := "0.5", Fields := [("RiverReachName", .str "A, r-"), ("xsName", .str "1")],
    Geometry := [5] }

/-- The cross-section "-1" on reach "A, r", whose label holds no hyphen, and the bank
labelled "A, r-". -/
def hyphenBankFeatures : Features :=
  { Rivers := hyphenRivers, XS := [xsMinusOne], Banks := [hyphenBank] }

/-- The statements among the steps of a run, in order. -/
def writes (evs : List (Event σ)) : List (Stmt σ) :=
  evs.filterMap (fun ev => match ev with
    | .stmt s _ => some s
    | _ => none)

section Lemmas

variable [DecidableEq σ]

theorem bind_apply {α β : Type} (m : TxM σ α) (f : α → TxM σ β) (st : TxState σ) :
    (m >>= f) st =
      match m st with
      | ⟨.ok a, st1, ev1⟩ => ⟨(f a st1).res, (f a st1).st, ev1 ++ (f a st1).events⟩
      | ⟨.err e, st1, ev1⟩ => ⟨.err e, st1, ev1⟩
      | ⟨.crash, st1, ev1⟩ => ⟨.crash, st1, ev1⟩ := rfl

theorem pure_apply {α : Type} (a : α) (st : TxState σ) :
    (pure a : TxM σ α) st = ⟨.ok a, st, []⟩ := rfl

theorem bind_ok {α β : Type} {m : TxM σ α} {f : α → TxM σ β} {st : TxState σ} {a : α}
    (h : (m st).res = .ok a) :
    (m >>= f) st =
      ⟨(f a (m st).st).res, (f a (m st).st).st, (m st).events ++ (f a (m st).st).events⟩ := by
  rw [bind_apply]
  rcases hm : m st with ⟨r, st1, ev1⟩
  rw [hm] at h
  simp only at h
  subst h
  rfl

theorem bind_err {α β : Type} {m : TxM σ α} {f : α → TxM σ β} {st : TxState σ}
    {e : Error} (h : (m st).res = .err e) :
    (m >>= f) st = ⟨.err e, (m st).st, (m st).events⟩ := by
  rw [bind_apply]
  rcases hm : m st with ⟨r, st1, ev1⟩
  rw [hm] at h
  simp only at h
  subst h
  rfl

theorem bind_crash {α β : Type} {m : TxM σ α} {f : α → TxM σ β} {st : TxState σ}
    (h : (m st).res = .crash) :
    (m >>= f) st = ⟨.crash, (m st).st, (m st).events⟩ := by
  rw [bind_apply]
  rcases hm : m st with ⟨r, st1, ev1⟩
  rw [hm] at h
  simp only at h
  subst h
  rfl

theorem exec_of_rejects (env : Env σ) (s : Stmt σ) (st : TxState σ)
    (h : env.rejects st.store s = true) :
    exec env s st = ⟨.err .sql, st, [.stmt s none]⟩ := by
  unfold exec
  rw [if_pos h]

theorem exec_of_accepts (env : Env σ) (s : Stmt σ) (st : TxState σ)
    (h : ¬ env.rejects st.store s = true) :
    exec env s st = ⟨.ok (st.store.upsert s).2, { st with store := (st.store.upsert s).1 },
      [.stmt s (some (st.store.upsert s).2)]⟩ := by
  unfold exec
  rw [if_neg h]

/-- Case analysis on the result of a computation. -/
theorem res_cases {α : Type} (m : TxM σ α) (st : TxState σ) :
    (∃ a, (m st).res = .ok a) ∨ (∃ e, (m st).res = .err e) ∨ (m st).res = .crash := by
  cases h : (m st).res with
  | ok a => exact Or.inl ⟨a, rfl⟩
  | err e => exact Or.inr (Or.inl ⟨e, rfl⟩)
  | crash => exact Or.inr (Or.inr rfl)

/-! ## Errors end the run and nothing is committed -/

theorem pre_pure {α : Type} (a : α) : Pre (pure a : TxM σ α) := by
  intro st
  exact ⟨rfl, by simp [pure_apply], Or.inr (by simp [pure_apply])⟩

theorem pre_panic {α : Type} : Pre (TxM.panic : TxM σ α) := by
  intro st
  exact ⟨rfl, by simp [TxM.panic], Or.inr (by simp [TxM.panic])⟩

theorem pre_bind {α β : Type} {m : TxM σ α} {f : α → TxM σ β} (hm : Pre m)
    (hf : ∀ a, Pre (f a)) : Pre (m >>= f) := by
  intro st
  obtain ⟨h2, h3, h4⟩ := hm st
  rcases res_cases m st with ⟨a, h⟩ | ⟨e, h⟩ | h
  · rw [bind_ok h]
    obtain ⟨g2, g3, g4⟩ := hf a (m st).st
    refine ⟨by simp only; rw [g2, h2], by simp [h3, g3], ?_⟩
    rcases g4 with g4 | g4
    · exact Or.inl g4
    · rcases h4 with ⟨e, h4⟩ | h4
      · rw [h] at h4; cases h4
      · right
        intro ev hev
        rcases List.mem_append.mp hev with hev | hev
        · exact h4 ev hev
        · exact g4 ev hev
  · rw [bind_err h]
    exact ⟨h2, h3, Or.inl ⟨e, rfl⟩⟩
  · rw [bind_crash h]
    refine ⟨h2, h3, ?_⟩
    rcases h4 with ⟨e, h4⟩ | h4
    · rw [h] at h4; cases h4
    · exact Or.inr h4

theorem pre_foldlM {α β : Type} (f : β → α → TxM σ β) (hf : ∀ b a, Pre (f b a))
    (xs : List α) (init : β) : Pre (xs.foldlM f init) := by
  induction xs generalizing init with
  | nil => simpa using pre_pure init
  | cons x xs ih =>
    rw [List.foldlM_cons]
    exact pre_bind (hf init x) (fun b => ih b)

theorem pre_call {α : Type} (ev : Event σ) (e : Error) (r : Option α)
    (h1 : ev ≠ .commit true) (h2 : r.isSome = true → ev.failed = false) :
    Pre (TxM.call ev e r : TxM σ α) := by
  intro st
  cases r with
  | none => exact ⟨rfl, by simpa [TxM.call] using Ne.symm h1, Or.inl ⟨e, rfl⟩⟩
  | some a =>
    exact ⟨rfl, by simpa [TxM.call] using Ne.symm h1, Or.inr (by simpa [TxM.call] using h2 rfl)⟩

theorem pre_exec (env : Env σ) (s : Stmt σ) : Pre (exec env s) := by
  intro st
  unfold exec
  by_cases h : env.rejects st.store s = true
  · rw [if_pos h]
    exact ⟨rfl, by simp, Or.inl ⟨.sql, rfl⟩⟩
  · rw [if_neg h]
    exact ⟨rfl, by simp, Or.inr (by simp [Event.failed])⟩

theorem pre_getCollectionID (env : Env σ) (f : String) : Pre (getCollectionID env f) := by
  unfold getCollectionID
  apply pre_call
  · simp
  · intro h; cases hc : env.collectionID f <;> simp_all [Event.failed]

theorem pre_getModelID (f : String) : Pre (getModelID f : TxM σ Nat) := by
  intro st
  unfold getModelID
  apply pre_call
  · simp
  · intro h; cases hc : st.store.idOf (.model f) <;> simp_all [Event.failed]

theorem pre_newRasModel (env : Env σ) (f : String) : Pre (newRasModel env f) := by
  unfold newRasModel
  apply pre_call
  · simp
  · intro h; simp [Event.failed, h]

theorem pre_parseFloat (env : Env σ) (s : String) : Pre (parseFloat env s) := by
  unfold parseFloat
  apply pre_call
  · simp
  · intro h; simp [Event.failed, h]

theorem pre_marshalMetadata (rm : RasModel) : Pre (marshalMetadata rm : TxM σ String) := by
  unfold marshalMetadata
  apply pre_call
  · simp
  · intro h; simp [Event.failed, h]

theorem pre_geospatialData (rm : RasModel) :
    Pre (geospatialData rm : TxM σ (List (String × Features))) := by
  unfold geospatialData
  apply pre_call
  · simp
  · intro h; simp [Event.failed, h]

theorem pre_assertString (v : Option FieldVal) : Pre (assertString v : TxM σ String) := by
  unfold assertString
  split
  · exact pre_pure _
  · exact pre_panic

theorem pre_upsertRiver (env : Env σ) (river : VectorFeature) (g : Nat) :
    Pre (upsertRiver env river g) := by
  unfold upsertRiver
  simp only
  split
  · exact pre_panic
  · split
    · exact pre_panic
    · exact pre_exec _ _

theorem pre_upsertModel (env : Env σ) (rm : RasModel) (f : String) (c : Nat) :
    Pre (upsertModel env rm f c) := by
  unfold upsertModel
  exact pre_bind (pre_marshalMetadata rm) (fun _ => pre_exec _ _)

theorem pre_addRivers (env : Env σ) (g : Nat) (rivers : List VectorFeature) :
    Pre (addRivers env g rivers) :=
  pre_foldlM _ (fun _ _ => pre_bind (pre_upsertRiver _ _ _) (fun _ => pre_pure _)) _ _

theorem pre_addXS (env : Env σ) (m : IDMap) (xss : List VectorFeature) :
    Pre (addXS env m xss) :=
  pre_foldlM _ (fun _ _ => pre_bind (pre_parseFloat _ _) (fun _ =>
    pre_bind (pre_assertString _) (fun _ => pre_bind (pre_exec _ _) (fun _ => pre_pure _)))) _ _

theorem pre_addBanks (env : Env σ) (m : IDMap) (banks : List VectorFeature) :
    Pre (addBanks env m banks) :=
  pre_foldlM _ (fun _ _ => pre_bind (pre_assertString _) (fun _ =>
    pre_bind (pre_parseFloat _ _) (fun _ => pre_bind (pre_exec _ _) (fun _ => pre_pure _)))) _ _

theorem pre_addAreas (env : Env σ) (g : Nat) (b : Bool) (m : IDMap)
    (areas : List VectorFeature) : Pre (addAreas env g b m areas) :=
  pre_foldlM _ (fun _ _ => pre_bind (pre_exec _ _) (fun _ => pre_pure _)) _ _

theorem pre_addConnections (env : Env σ) (g : Nat) (l : List VectorFeature) :
    Pre (addConnections env g l) :=
  pre_foldlM _ (fun _ _ => pre_bind (pre_exec _ _) (fun _ => pre_pure _)) _ _

theorem pre_addBreakLines (env : Env σ) (g : Nat) (l : List VectorFeature) :
    Pre (addBreakLines env g l) :=
  pre_foldlM _ (fun _ _ => pre_bind (pre_exec _ _) (fun _ => pre_pure _)) _ _

theorem pre_addBCLines (env : Env σ) (m : IDMap) (l : List VectorFeature) :
    Pre (addBCLines env m l) :=
  pre_foldlM _ (fun _ _ => pre_bind (pre_assertString _) (fun _ =>
    pre_bind (pre_exec _ _) (fun _ => pre_pure _))) _ _

theorem pre_upsertFeatures (env : Env σ) (g : Nat) (features : Features) :
    Pre (upsertFeatures env g features) := by
  unfold upsertFeatures
  exact pre_bind (pre_addRivers _ _ _) (fun _ => pre_bind (pre_addXS _ _ _) (fun _ =>
    pre_bind (pre_addBanks _ _ _) (fun _ => pre_bind (pre_addAreas _ _ _ _ _) (fun _ =>
    pre_bind (pre_addAreas _ _ _ _ _) (fun _ => pre_bind (pre_addConnections _ _ _) (fun _ =>
    pre_bind (pre_addBreakLines _ _ _) (fun _ => pre_addBCLines _ _ _)))))))

theorem pre_upsertGeometryFile (env : Env σ) (modelID : Nat)
    (geodata : List (String × Features)) (gf : GeometryFile) :
    Pre (upsertGeometryFile env modelID geodata gf) := by
  unfold upsertGeometryFile
  exact pre_bind (pre_exec _ _) (fun _ => pre_upsertFeatures _ _ _)

theorem pre_geometryFiles (env : Env σ) (modelID : Nat) (geodata : List (String × Features))
    (gfs : List GeometryFile) :
    Pre (gfs.foldlM (fun _ gf => upsertGeometryFile env modelID geodata gf) ()) :=
  pre_foldlM _ (fun _ _ => pre_upsertGeometryFile _ _ _ _) _ _

theorem pre_post {α : Type} {m : TxM σ α} (h : Pre m) : Post m := by
  intro st
  obtain ⟨h2, h3, h4⟩ := h st
  rcases h4 with h4 | h4
  · exact Or.inl ⟨h4, h2, h3⟩
  · exact Or.inr h4

theorem post_bind {α β : Type} {m : TxM σ α} {f : α → TxM σ β} (hm : Pre m)
    (hf : ∀ a, Post (f a)) : Post (m >>= f) := by
  intro st
  obtain ⟨h2, h3, h4⟩ := hm st
  rcases res_cases m st with ⟨a, h⟩ | ⟨e, h⟩ | h
  · rw [bind_ok h]
    rcases h4 with ⟨e, h4⟩ | h4
    · rw [h] at h4; cases h4
    · rcases hf a (m st).st with ⟨ge, gc, gn⟩ | g2
      · left
        exact ⟨ge, by simp only; rw [gc, h2], by simp [h3, gn]⟩
      · right
        intro ev hev
        rcases List.mem_append.mp hev with hev | hev
        · exact h4 ev hev
        · exact g2 ev hev
  · rw [bind_err h]
    exact Or.inl ⟨⟨e, rfl⟩, h2, h3⟩
  · rw [bind_crash h]
    rcases h4 with ⟨e, h4⟩ | h4
    · rw [h] at h4; cases h4
    · exact Or.inr h4

theorem post_commit (env : Env σ) : Post (commit env) := by
  intro st
  unfold commit
  by_cases h : env.commitOk st.store = true
  · rw [if_pos h]
    exact Or.inr (by simp [Event.failed])
  · rw [if_neg h]
    exact Or.inl ⟨⟨.commit, rfl⟩, rfl, by simp⟩

theorem post_modelInfoTx (env : Env σ) (f : String) : Post (modelInfoTx env f) := by
  unfold modelInfoTx
  exact post_bind (pre_getCollectionID _ _) (fun _ => post_bind (pre_newRasModel _ _)
    (fun _ => post_bind (pre_upsertModel _ _ _ _) (fun _ => post_commit _)))

theorem post_modelGeometryTx (env : Env σ) (f : String) : Post (modelGeometryTx env f) := by
  unfold modelGeometryTx
  refine post_bind (pre_getModelID _) (fun modelID => post_bind (pre_newRasModel _ _)
    (fun rm => ?_))
  by_cases h : rm.isGeospatial = true
  · simp only [h, if_true]
    exact post_bind (pre_geospatialData _) (fun _ => post_bind (pre_geometryFiles _ _ _ _)
      (fun _ => post_commit _))
  · simp only [h]
    exact pre_post (pre_pure _)

/-- A transaction whose body is `Post`: a failed step forces a returned error, no
successful commit, and an unchanged store. -/
theorem runTx_failed (env : Env σ) (db : Store σ) (body : TxM σ Unit) (hb : Post body)
    (h : ∃ ev ∈ (runTx env db body).trace, ev.failed = true) :
    (∃ e, (runTx env db body).outcome = .err e) ∧
      Event.commit true ∉ (runTx env db body).trace ∧ (runTx env db body).db = db := by
  unfold runTx at h ⊢
  by_cases hbeg : env.beginOk = true
  · simp only [hbeg, if_true] at h ⊢
    rcases hb { store := db, committed := false } with ⟨he, hc, hn⟩ | h2
    · refine ⟨he, hn, ?_⟩
      simp only at hc
      simp [hc]
    · obtain ⟨ev, hev, hf⟩ := h
      rw [h2 ev hev] at hf
      cases hf
  · simp only [hbeg] at h ⊢
    obtain ⟨ev, hev, _⟩ := h
    simp at hev

/-! ## The store under upserts -/

theorem idOf_eq_skel (db : Store σ) (k : Key σ) :
    db.idOf k = (db.skel.find? (fun p => decide (p.2 = k))).map (fun p => p.1) := by
  unfold Store.idOf Store.skel
  induction db with
  | nil => rfl
  | cons r db ih =>
    by_cases h : r.key = k
    · simp [List.find?, h]
    · simp only [List.find?, List.map_cons, h, decide_False]
      exact ih

theorem idOf_eq_of_skel {db db2 : Store σ} (h : db.skel = db2.skel) (k : Key σ) :
    db.idOf k = db2.idOf k := by
  rw [idOf_eq_skel, idOf_eq_skel, h]

theorem le_refl (db : Store σ) : db.le db := fun _ _ h => h

theorem le_trans {a b c : Store σ} (h1 : a.le b) (h2 : b.le c) : a.le c :=
  fun k i h => h2 k i (h1 k i h)

theorem le_of_skel {db db2 : Store σ} (h : db.skel = db2.skel) : db.le db2 := by
  intro k i hk
  rw [← idOf_eq_of_skel h k]
  exact hk

theorem idOf_none_iff (db : Store σ) (k : Key σ) :
    db.idOf k = none ↔ ∀ r ∈ db, r.key ≠ k := by
  unfold Store.idOf
  simp [List.find?_eq_none]

theorem idOf_append_of_some (db db2 : Store σ) (k : Key σ) (i : Nat)
    (h : db.idOf k = some i) : (db ++ db2).idOf k = some i := by
  unfold Store.idOf at h ⊢
  rw [List.find?_append]
  cases hf : List.find? (fun r => decide (r.key = k)) db with
  | none => rw [hf] at h; simp at h
  | some r => rw [hf] at h; simpa using h

theorem idOf_append_of_none (db : Store σ) (r : Row σ) (h : db.idOf r.key = none) :
    (db ++ [r]).idOf r.key = some r.id := by
  unfold Store.idOf at h ⊢
  rw [List.find?_append]
  cases hf : List.find? (fun x => decide (x.key = r.key)) db with
  | none => simp [List.find?]
  | some x => rw [hf] at h; simp at h

/-- A statement whose natural key is known updates in place: it returns the known
identifier and changes no identifier and no key. -/
theorem upsert_of_known (db : Store σ) (s : Stmt σ) (i : Nat) (h : db.idOf s.key = some i) :
    (db.upsert s).2 = i ∧ (db.upsert s).1.skel = db.skel := by
  unfold Store.upsert
  rw [h]
  refine ⟨rfl, ?_⟩
  simp only [Store.skel, List.map_map]
  apply List.map_congr_left
  intro r _
  by_cases hk : r.key = s.key
  · have hk2 : r.cols.key = s.key := hk
    simp [hk, Row.key, hk2]
  · simp [hk]

/-- After an upsert the statement's natural key carries the identifier returned. -/
theorem upsert_idOf (db : Store σ) (s : Stmt σ) :
    (db.upsert s).1.idOf s.key = some (db.upsert s).2 := by
  cases h : db.idOf s.key with
  | some i =>
    obtain ⟨h1, h2⟩ := upsert_of_known db s i h
    rw [idOf_eq_of_skel h2, h1, h]
  | none =>
    unfold Store.upsert
    rw [h]
    exact idOf_append_of_none db ⟨db.nextId s.key.table, s⟩ h

/-- An upsert keeps every known key under its identifier. -/
theorem upsert_le (db : Store σ) (s : Stmt σ) : db.le (db.upsert s).1 := by
  cases h : db.idOf s.key with
  | some i => exact le_of_skel (upsert_of_known db s i h).2.symm
  | none =>
    intro k j hk
    unfold Store.upsert
    rw [h]
    exact idOf_append_of_some db _ k j hk

theorem tableKeys_eq_skel (db : Store σ) (t : Table) :
    db.tableKeys t = db.skel.filter (fun p => decide (p.2.table = t)) := by
  unfold Store.tableKeys Store.skel
  rw [List.filter_map]
  rfl

/-! ## The pipeline as related computations -/

theorem bind_ok_inv {α β : Type} {m : TxM σ α} {f : α → TxM σ β} {st : TxState σ} {b : β}
    (h : ((m >>= f) st).res = .ok b) :
    ∃ a, (m st).res = .ok a ∧ (f a (m st).st).res = .ok b := by
  rcases res_cases m st with ⟨a, ha⟩ | ⟨e, he⟩ | hc
  · rw [bind_ok ha] at h
    exact ⟨a, ha, h⟩
  · rw [bind_err he] at h; cases h
  · rw [bind_crash hc] at h; cases h

theorem call_st {α : Type} (ev : Event σ) (e : Error) (r : Option α) (st : TxState σ) :
    (TxM.call ev e r st).st = st := by
  cases r <;> rfl

theorem call_events {α : Type} (ev : Event σ) (e : Error) (r : Option α) (st : TxState σ) :
    (TxM.call ev e r st).events = [ev] := by
  cases r <;> rfl

theorem call_ok {α : Type} {ev : Event σ} {e : Error} {r : Option α} {st : TxState σ} {a : α}
    (h : (TxM.call ev e r st).res = .ok a) : r = some a := by
  cases r with
  | none => cases h
  | some b => simp only [TxM.call, Res.ok.injEq] at h; rw [h]

theorem commit_store (env : Env σ) (st : TxState σ) : (commit env st).st.store = st.store := by
  unfold commit
  split <;> rfl

theorem commit_events_not_stmt (env : Env σ) (st : TxState σ) (s : Stmt σ) (r : Option Nat) :
    Event.stmt s r ∉ (commit env st).events := by
  unfold commit
  split <;> simp

theorem rel_foldlM {env1 env2 : Env σ} {α β : Type} (f1 f2 : β → α → TxM σ β)
    (hf : ∀ b a, Rel env1 env2 (f1 b a) (f2 b a)) (xs : List α) (init : β) :
    Rel env1 env2 (xs.foldlM f1 init) (xs.foldlM f2 init) := by
  induction xs generalizing init with
  | nil => simpa using Rel.pure init
  | cons x xs ih =>
    rw [List.foldlM_cons, List.foldlM_cons]
    exact Rel.bind (hf init x) (fun b => ih b)

theorem faithful_of_rel {env1 env2 : Env σ} {α : Type} {m1 m2 : TxM σ α}
    (h : Rel env1 env2 m1 m2) : Faithful m1 := by
  induction h with
  | pure a => intro st; exact ⟨le_refl _, by simp [pure_apply]⟩
  | panic => intro st; exact ⟨le_refl _, by simp [TxM.panic]⟩
  | call ev1 ev2 e r h1 h2 =>
    intro st
    rw [call_st, call_events]
    refine ⟨le_refl _, ?_⟩
    intro s i hs
    simp only [List.mem_singleton] at hs
    rw [← hs] at h1
    cases h1
  | exec s =>
    intro st
    by_cases hr : env1.rejects st.store s = true
    · rw [exec_of_rejects _ _ _ hr]
      exact ⟨le_refl _, by simp⟩
    · rw [exec_of_accepts _ _ _ hr]
      refine ⟨upsert_le _ _, ?_⟩
      intro s2 i hs
      simp only [List.mem_singleton, Event.stmt.injEq, Option.some.injEq] at hs
      obtain ⟨rfl, rfl⟩ := hs
      exact upsert_idOf _ _
  | getModelID f =>
    intro st
    unfold getModelID
    rw [call_st, call_events]
    exact ⟨le_refl _, by simp⟩
  | commit =>
    intro st
    rw [commit_store]
    exact ⟨le_refl _, fun s i hs => absurd hs (commit_events_not_stmt _ _ _ _)⟩
  | bind hm hf ihm ihf =>
    rename_i m1 m2 f1 f2
    intro st
    obtain ⟨h1, h2⟩ := ihm st
    rcases res_cases m1 st with ⟨a, ha⟩ | ⟨e, he⟩ | hc
    · rw [bind_ok ha]
      obtain ⟨g1, g2⟩ := ihf a (m1 st).st
      refine ⟨le_trans h1 g1, ?_⟩
      intro s i hs
      rcases List.mem_append.mp hs with hs | hs
      · exact g1 _ _ (h2 s i hs)
      · exact g2 s i hs
    · rw [bind_err he]; exact ⟨h1, h2⟩
    · rw [bind_crash hc]; exact ⟨h1, h2⟩

theorem sim_of_rel {env1 env2 : Env σ} {α : Type} {m1 m2 : TxM σ α}
    (h : Rel env1 env2 m1 m2) : Sim m1 m2 := by
  induction h with
  | pure a =>
    intro st1 b hb st2 _
    simp only [pure_apply, Res.ok.injEq] at hb
    exact ⟨rfl, fun c hc => by simp only [pure_apply, Res.ok.injEq] at hc; rw [← hc, hb]⟩
  | panic => intro st1 b hb; cases hb
  | call ev1 ev2 e r h1 h2 =>
    intro st1 b hb st2 _
    have hr := call_ok hb
    subst hr
    exact ⟨by rw [call_st], fun c hc => (Option.some.inj (call_ok hc)).symm⟩
  | exec s =>
    intro st1 b hb st2 hle
    by_cases hr : env1.rejects st1.store s = true
    · rw [exec_of_rejects _ _ _ hr] at hb; cases hb
    · rw [exec_of_accepts _ _ _ hr] at hb hle
      simp only [Res.ok.injEq] at hb
      have hk : st2.store.idOf s.key = some b := by
        apply hle
        rw [← hb]
        exact upsert_idOf _ _
      by_cases hr2 : env2.rejects st2.store s = true
      · rw [exec_of_rejects _ _ _ hr2]
        exact ⟨rfl, fun c hc => by cases hc⟩
      · rw [exec_of_accepts _ _ _ hr2]
        obtain ⟨u1, u2⟩ := upsert_of_known _ _ _ hk
        exact ⟨u2, fun c hc => by simp only [Res.ok.injEq] at hc; rw [← hc, u1]⟩
  | getModelID f =>
    intro st1 b hb st2 hle
    unfold getModelID at hb hle ⊢
    rw [call_st] at hle ⊢
    have h1 := call_ok hb
    have h2 := hle _ _ h1
    refine ⟨rfl, fun c hc => ?_⟩
    have h3 := call_ok hc
    rw [h2] at h3
    exact (Option.some.inj h3).symm
  | commit =>
    intro st1 b hb st2 _
    rw [commit_store]
    exact ⟨rfl, fun c _ => rfl⟩
  | bind hm hf ihm ihf =>
    rename_i m1 m2 f1 f2
    intro st1 b hb st2 hle
    obtain ⟨a, ha, hfa⟩ := bind_ok_inv hb
    rw [bind_ok ha] at hle
    simp only at hle
    have hmono := (faithful_of_rel (hf a) (m1 st1).st).1
    obtain ⟨s1, s2⟩ := ihm st1 a ha st2 (le_trans hmono hle)
    rcases res_cases m2 st2 with ⟨a2, ha2⟩ | ⟨e, he⟩ | hc
    · have := s2 a2 ha2
      subst this
      rw [bind_ok ha2]
      have hle2 : ((f1 a2 (m1 st1).st).st.store).le (m2 st2).st.store :=
        le_trans hle (le_of_skel s1.symm)
      obtain ⟨t1, t2⟩ := ihf a2 (m1 st1).st b hfa (m2 st2).st hle2
      exact ⟨by simp only; rw [t1, s1], t2⟩
    · rw [bind_err he]
      exact ⟨s1, fun c hc => by cases hc⟩
    · rw [bind_crash hc]
      exact ⟨s1, fun c hc => by cases hc⟩

theorem rel_parseFloat {env1 env2 : Env σ} (hp : env1.parseFloat = env2.parseFloat)
    (s : String) : Rel env1 env2 (parseFloat env1 s) (parseFloat env2 s) := by
  unfold parseFloat
  rw [hp]
  exact Rel.call _ _ _ _ rfl rfl

theorem rel_assertString (env1 env2 : Env σ) (v : Option FieldVal) :
    Rel env1 env2 (assertString v) (assertString v) := by
  unfold assertString
  split
  · exact Rel.pure _
  · exact Rel.panic

theorem rel_upsertRiver (env1 env2 : Env σ) (river : VectorFeature) (g : Nat) :
    Rel env1 env2 (upsertRiver env1 river g) (upsertRiver env2 river g) := by
  unfold upsertRiver
  simp only
  split
  · exact Rel.panic
  · split
    · exact Rel.panic
    · exact Rel.exec _

theorem rel_addRivers (env1 env2 : Env σ) (g : Nat) (rivers : List VectorFeature) :
    Rel env1 env2 (addRivers env1 g rivers) (addRivers env2 g rivers) :=
  rel_foldlM _ _ (fun _ _ => Rel.bind (rel_upsertRiver _ _ _ _) (fun _ => Rel.pure _)) _ _

theorem rel_addXS {env1 env2 : Env σ} (hp : env1.parseFloat = env2.parseFloat) (m : IDMap)
    (xss : List VectorFeature) : Rel env1 env2 (addXS env1 m xss) (addXS env2 m xss) :=
  rel_foldlM _ _ (fun _ _ => Rel.bind (rel_parseFloat hp _) (fun _ =>
    Rel.bind (rel_assertString _ _ _) (fun _ => Rel.bind (Rel.exec _) (fun _ => Rel.pure _))))
    _ _

theorem rel_addBanks {env1 env2 : Env σ} (hp : env1.parseFloat = env2.parseFloat) (m : IDMap)
    (banks : List VectorFeature) :
    Rel env1 env2 (addBanks env1 m banks) (addBanks env2 m banks) :=
  rel_foldlM _ _ (fun _ _ => Rel.bind (rel_assertString _ _ _) (fun _ =>
    Rel.bind (rel_parseFloat hp _) (fun _ => Rel.bind (Rel.exec _) (fun _ => Rel.pure _))))
    _ _

theorem rel_addAreas (env1 env2 : Env σ) (g : Nat) (b : Bool) (m : IDMap)
    (areas : List VectorFeature) :
    Rel env1 env2 (addAreas env1 g b m areas) (addAreas env2 g b m areas) :=
  rel_foldlM _ _ (fun _ _ => Rel.bind (Rel.exec _) (fun _ => Rel.pure _)) _ _

theorem rel_addConnections (env1 env2 : Env σ) (g : Nat) (l : List VectorFeature) :
    Rel env1 env2 (addConnections env1 g l) (addConnections env2 g l) :=
  rel_foldlM _ _ (fun _ _ => Rel.bind (Rel.exec _) (fun _ => Rel.pure _)) _ _

theorem rel_addBreakLines (env1 env2 : Env σ) (g : Nat) (l : List VectorFeature) :
    Rel env1 env2 (addBreakLines env1 g l) (addBreakLines env2 g l) :=
  rel_foldlM _ _ (fun _ _ => Rel.bind (Rel.exec _) (fun _ => Rel.pure _)) _ _

theorem rel_addBCLines (env1 env2 : Env σ) (m : IDMap) (l : List VectorFeature) :
    Rel env1 env2 (addBCLines env1 m l) (addBCLines env2 m l) :=
  rel_foldlM _ _ (fun _ _ => Rel.bind (rel_assertString _ _ _) (fun _ =>
    Rel.bind (Rel.exec _) (fun _ => Rel.pure _))) _ _

theorem rel_upsertFeatures {env1 env2 : Env σ} (hp : env1.parseFloat = env2.parseFloat)
    (g : Nat) (features : Features) :
    Rel env1 env2 (upsertFeatures env1 g features) (upsertFeatures env2 g features) := by
  unfold upsertFeatures
  exact Rel.bind (rel_addRivers _ _ _ _) (fun _ => Rel.bind (rel_addXS hp _ _) (fun _ =>
    Rel.bind (rel_addBanks hp _ _) (fun _ => Rel.bind (rel_addAreas _ _ _ _ _ _) (fun _ =>
    Rel.bind (rel_addAreas _ _ _ _ _ _) (fun _ => Rel.bind (rel_addConnections _ _ _ _)
    (fun _ => Rel.bind (rel_addBreakLines _ _ _ _) (fun _ => rel_addBCLines _ _ _ _)))))))

theorem rel_upsertGeometryFile {env1 env2 : Env σ} (hp : env1.parseFloat = env2.parseFloat)
    (modelID : Nat) (geodata : List (String × Features)) (gf : GeometryFile) :
    Rel env1 env2 (upsertGeometryFile env1 modelID geodata gf)
      (upsertGeometryFile env2 modelID geodata gf) := by
  unfold upsertGeometryFile
  exact Rel.bind (Rel.exec _) (fun _ => rel_upsertFeatures hp _ _)

theorem rel_modelGeometryTx {env1 env2 : Env σ} (hp : env1.parseFloat = env2.parseFloat)
    (f : String) (hm : env1.newRasModel f = env2.newRasModel f) :
    Rel env1 env2 (modelGeometryTx env1 f) (modelGeometryTx env2 f) := by
  unfold modelGeometryTx
  refine Rel.bind (Rel.getModelID _) (fun modelID => Rel.bind ?_ (fun rm => ?_))
  · unfold newRasModel
    rw [hm]
    exact Rel.call _ _ _ _ rfl rfl
  · by_cases h : rm.isGeospatial = true
    · simp only [h, if_true]
      refine Rel.bind (Rel.call _ _ _ _ rfl rfl) (fun gd => Rel.bind ?_ (fun _ => Rel.commit))
      exact rel_foldlM _ _ (fun _ _ => rel_upsertGeometryFile hp _ _ _) _ _
    · simp only [h]
      exact Rel.pure _

/-- A successful `upsertModelGeometry` body has committed, or has left the store alone. -/
theorem modelGeometryTx_ok (env : Env σ) (f : String) (st : TxState σ)
    (h : (modelGeometryTx env f st).res = .ok ()) :
    (modelGeometryTx env f st).st.committed = true ∨
      (modelGeometryTx env f st).st.store = st.store := by
  unfold modelGeometryTx at h ⊢
  obtain ⟨modelID, h1, h⟩ := bind_ok_inv h
  rw [bind_ok h1]
  obtain ⟨rm, h2, h⟩ := bind_ok_inv h
  rw [bind_ok h2]
  have e1 : (getModelID f st).st = st := by unfold getModelID; rw [call_st]
  have e2 : (newRasModel env f (getModelID f st).st).st = st := by
    unfold newRasModel; rw [call_st, e1]
  rw [e2] at h ⊢
  by_cases hg : rm.isGeospatial = true
  · simp only [hg, if_true] at h ⊢
    left
    obtain ⟨gd, h3, h⟩ := bind_ok_inv h
    rw [bind_ok h3]
    obtain ⟨u, h4, h⟩ := bind_ok_inv h
    rw [bind_ok h4]
    simp only
    unfold commit at h ⊢
    split
    · rfl
    · rename_i hc; rw [if_neg hc] at h; cases h
  · simp only [hg] at h ⊢
    right
    rfl

/-- The store visible after a transaction is the store before it or the store the body
left. -/
theorem runTx_db (env : Env σ) (db : Store σ) (body : TxM σ Unit) :
    (runTx env db body).db = db ∨
      (runTx env db body).db = (body ⟨db, false⟩).st.store := by
  unfold runTx
  by_cases hb : env.beginOk = true
  · simp only [hb, if_true]
    by_cases hc : (body ⟨db, false⟩).st.committed = true
    · right; rw [if_pos hc]
    · left; rw [if_neg hc]
  · left; simp only [hb]; rfl

/-- After a successful `upsertModelGeometry` the visible store is the store the body
left. -/
theorem upsertModelGeometry_ok_db (env : Env σ) (f : String) (db : Store σ)
    (hok : (upsertModelGeometry env f db).outcome = .ok ()) :
    (modelGeometryTx env f ⟨db, false⟩).res = .ok () ∧
      (upsertModelGeometry env f db).db = (modelGeometryTx env f ⟨db, false⟩).st.store := by
  unfold upsertModelGeometry runTx at hok ⊢
  by_cases hb : env.beginOk = true
  · simp only [hb, if_true] at hok ⊢
    refine ⟨hok, ?_⟩
    rcases modelGeometryTx_ok env f ⟨db, false⟩ hok with hc | hs
    · rw [if_pos hc]
    · rw [hs]; split <;> rfl
  · simp only [hb] at hok
    cases hok

/-! ## What a successful step has done -/

theorem exec_ok {env : Env σ} {s : Stmt σ} {st : TxState σ} {i : Nat}
    (h : (exec env s st).res = .ok i) :
    (exec env s st).events = [.stmt s (some i)] := by
  by_cases hr : env.rejects st.store s = true
  · rw [exec_of_rejects _ _ _ hr] at h; cases h
  · rw [exec_of_accepts _ _ _ hr] at h ⊢
    simp only [Res.ok.injEq] at h
    rw [h]

theorem exec_events (env : Env σ) (s : Stmt σ) (st : TxState σ) :
    ∃ r, (exec env s st).events = [.stmt s r] := by
  by_cases hr : env.rejects st.store s = true
  · rw [exec_of_rejects _ _ _ hr]; exact ⟨none, rfl⟩
  · rw [exec_of_accepts _ _ _ hr]; exact ⟨_, rfl⟩

theorem parseFloat_ok {env : Env σ} {s : String} {st : TxState σ} {x : σ}
    (h : (parseFloat env s st).res = .ok x) :
    env.parseFloat s = some x ∧ (parseFloat env s st).st = st ∧
      (parseFloat env s st).events = [.parseFloat s true] := by
  unfold parseFloat at h ⊢
  have hx := call_ok h
  rw [call_st, call_events, hx]
  exact ⟨rfl, rfl, rfl⟩

theorem assertString_ok {v : Option FieldVal} {st : TxState σ} {s : String}
    (h : (assertString v st : Out σ String).res = .ok s) :
    v = some (.str s) ∧ (assertString v st : Out σ String).st = st ∧
      (assertString v st : Out σ String).events = [] := by
  cases v with
  | none => cases h
  | some fv =>
    cases fv with
    | str t =>
      simp only [assertString, pure_apply, Res.ok.injEq] at h
      subst h
      exact ⟨rfl, rfl, rfl⟩
    | other t => cases h

theorem assertString_events (v : Option FieldVal) (st : TxState σ) :
    (assertString v st : Out σ String).events = [] := by
  unfold assertString
  split <;> rfl

theorem upsertRiver_ok {env : Env σ} {river : VectorFeature} {g : Nat} {st : TxState σ}
    {i : Nat} (h : (upsertRiver env river g st).res = .ok i) :
    ∃ r0 r1, (stringsSplit river.FeatureName ',')[0]? = some r0 ∧
      (stringsSplit river.FeatureName ',')[1]? = some r1 ∧
      (upsertRiver env river g st).events =
        [.stmt (.upsertRivers g (trimSpace r0) (trimSpace r1) river.Geometry) (some i)] := by
  cases h0 : (stringsSplit river.FeatureName ',')[0]? with
  | none =>
    simp only [upsertRiver, h0] at h
    cases h
  | some r0 =>
    cases h1 : (stringsSplit river.FeatureName ',')[1]? with
    | none =>
      simp only [upsertRiver, h0, h1] at h
      cases h
    | some r1 =>
      simp only [upsertRiver, h0, h1] at h ⊢
      exact ⟨r0, r1, rfl, rfl, exec_ok h⟩

/-- Every element of a fold that returned a value was processed successfully, and the
steps of its processing are among the steps of the fold. -/
theorem foldlM_ok_mem {α β : Type} (f : β → α → TxM σ β) (xs : List α) (init : β)
    (st : TxState σ) (b : β) (h : (xs.foldlM f init st).res = .ok b) :
    ∀ x ∈ xs, ∃ b0 st0 b1, (f b0 x st0).res = .ok b1 ∧
      ∀ ev ∈ (f b0 x st0).events, ev ∈ (xs.foldlM f init st).events := by
  induction xs generalizing init st with
  | nil => intro x hx; cases hx
  | cons y ys ih =>
    rw [List.foldlM_cons] at h ⊢
    obtain ⟨a, ha, hfa⟩ := bind_ok_inv h
    rw [bind_ok ha]
    intro x hx
    rcases List.mem_cons.mp hx with rfl | hx
    · exact ⟨init, st, a, ha, fun ev hev => List.mem_append_left _ hev⟩
    · obtain ⟨b0, st0, b1, h1, h2⟩ := ih a (f init y st).st hfa x hx
      exact ⟨b0, st0, b1, h1, fun ev hev => List.mem_append_right _ (h2 ev hev)⟩

/-- Every step of a fold, whatever its result, is a step of processing one element. -/
theorem foldlM_events_mem {α β : Type} (f : β → α → TxM σ β) (xs : List α) (init : β)
    (st : TxState σ) :
    ∀ ev ∈ (xs.foldlM f init st).events, ∃ x ∈ xs, ∃ b0 st0, ev ∈ (f b0 x st0).events := by
  induction xs generalizing init st with
  | nil => intro ev hev; simp [pure_apply] at hev
  | cons y ys ih =>
    rw [List.foldlM_cons]
    intro ev hev
    rcases res_cases (f init y) st with ⟨a, ha⟩ | ⟨e, he⟩ | hc
    · rw [bind_ok ha] at hev
      rcases List.mem_append.mp hev with hev | hev
      · exact ⟨y, List.mem_cons_self _ _, init, st, hev⟩
      · obtain ⟨x, hx, b0, st0, h⟩ := ih a _ ev hev
        exact ⟨x, List.mem_cons_of_mem _ hx, b0, st0, h⟩
    · rw [bind_err he] at hev
      exact ⟨y, List.mem_cons_self _ _, init, st, hev⟩
    · rw [bind_crash hc] at hev
      exact ⟨y, List.mem_cons_self _ _, init, st, hev⟩

theorem lookup_set_self (m : IDMap) (k : String) (v : Nat) :
    (m.set k v).lookup k = some v := by
  simp [IDMap.set, List.lookup]

theorem lookup_set_ne (m : IDMap) (k k2 : String) (v : Nat) (h : k2 ≠ k) :
    (m.set k v).lookup k2 = m.lookup k2 := by
  have : (k2 == k) = false := by simpa using h
  simp [IDMap.set, List.lookup, this]

/-- A loop that files the identifier returned for each element under a key of the
element: afterwards a key of no element is as before, and a key of some element holds
the identifier returned for an element with that key. -/
theorem foldlM_collect {α : Type} (f : IDMap → α → TxM σ IDMap) (key : α → String)
    (R : α → Nat → Event σ → Prop)
    (hf : ∀ m x st m2, (f m x st).res = .ok m2 →
      ∃ i, m2 = m.set (key x) i ∧ ∃ ev ∈ (f m x st).events, R x i ev)
    (xs : List α) (m0 : IDMap) (st : TxState σ) (M : IDMap)
    (h : (xs.foldlM f m0 st).res = .ok M) :
    (∀ k, k ∉ xs.map key → M.lookup k = m0.lookup k) ∧
    (∀ k, k ∈ xs.map key → ∃ x ∈ xs, key x = k ∧ ∃ i, M.lookup k = some i ∧
      ∃ ev ∈ (xs.foldlM f m0 st).events, R x i ev) := by
  induction xs generalizing m0 st with
  | nil =>
    simp only [List.foldlM_nil, pure_apply, Res.ok.injEq] at h
    subst h
    exact ⟨fun _ _ => rfl, fun k hk => by simp at hk⟩
  | cons y ys ih =>
    rw [List.foldlM_cons] at h ⊢
    obtain ⟨m1, h1, h2⟩ := bind_ok_inv h
    rw [bind_ok h1]
    obtain ⟨i, hi, ev, hev, hR⟩ := hf m0 y st m1 h1
    obtain ⟨ia, ib⟩ := ih m1 (f m0 y st).st h2
    constructor
    · intro k hk
      simp only [List.map_cons, List.mem_cons, not_or] at hk
      rw [ia k hk.2, hi, lookup_set_ne _ _ _ _ hk.1]
    · intro k hk
      by_cases hys : k ∈ ys.map key
      · obtain ⟨x, hx, hkx, j, hj, ev2, hev2, hR2⟩ := ib k hys
        exact ⟨x, List.mem_cons_of_mem _ hx, hkx, j, hj, ev2, List.mem_append_right _ hev2, hR2⟩
      · have hky : k = key y := by
          simp only [List.map_cons, List.mem_cons] at hk
          rcases hk with hk | hk
          · exact hk
          · exact absurd hk hys
        refine ⟨y, List.mem_cons_self _ _, hky.symm, i, ?_, ev, List.mem_append_left _ hev, hR⟩
        rw [ia k hys, hi, hky, lookup_set_self]

theorem riverStmt_of_ok {env : Env σ} {river : VectorFeature} {g : Nat} {st : TxState σ}
    {i : Nat} (h : (upsertRiver env river g st).res = .ok i) :
    ∃ s, riverStmt g river = some s ∧ (upsertRiver env river g st).events = [.stmt s (some i)] := by
  obtain ⟨r0, r1, h0, h1, he⟩ := upsertRiver_ok h
  exact ⟨_, by simp [riverStmt, h0, h1], he⟩

theorem riverStmt_key {g : Nat} {r r2 : VectorFeature} {s s2 : Stmt σ}
    (h : riverStmt g r = some s) (h2 : riverStmt g r2 = some s2)
    (hn : r.FeatureName = r2.FeatureName) : s.key = s2.key := by
  unfold riverStmt at h h2
  rw [hn] at h
  split at h
  · rename_i a b ha hb
    rw [ha, hb] at h2
    simp only [Option.some.injEq] at h h2
    subst h; subst h2
    rfl
  · cases h

/-- One turn of the loop "Add all rivers". -/
theorem river_turn {env : Env σ} {g : Nat} {m : IDMap} {river : VectorFeature}
    {st : TxState σ} {m2 : IDMap}
    (h : ((upsertRiver env river g >>= fun riverID =>
        (pure (m.set river.FeatureName riverID) : TxM σ IDMap)) st).res = .ok m2) :
    ∃ i s, m2 = m.set river.FeatureName i ∧ riverStmt g river = some s ∧
      ((upsertRiver env river g >>= fun riverID =>
        (pure (m.set river.FeatureName riverID) : TxM σ IDMap)) st).events
        = [.stmt s (some i)] := by
  obtain ⟨i, hi, hp⟩ := bind_ok_inv h
  rw [bind_ok hi]
  simp only [pure_apply, Res.ok.injEq] at hp
  obtain ⟨s, hs, he⟩ := riverStmt_of_ok hi
  exact ⟨i, s, hp.symm, hs, by simp [he, pure_apply]⟩

/-- One turn of a loop that sends one statement and files the identifier returned. -/
theorem exec_set_turn {env : Env σ} {s : Stmt σ} {m : IDMap} {k : String} {st : TxState σ}
    {m2 : IDMap}
    (h : ((exec env s >>= fun i => (pure (m.set k i) : TxM σ IDMap)) st).res = .ok m2) :
    ∃ i, m2 = m.set k i ∧
      ((exec env s >>= fun i => (pure (m.set k i) : TxM σ IDMap)) st).events
        = [.stmt s (some i)] := by
  obtain ⟨i, hi, hp⟩ := bind_ok_inv h
  rw [bind_ok hi]
  simp only [pure_apply, Res.ok.injEq] at hp
  exact ⟨i, hp.symm, by simp [exec_ok hi, pure_apply]⟩

/-- One turn of a loop that sends one statement and keeps nothing. -/
theorem exec_unit_turn {env : Env σ} {s : Stmt σ} {st : TxState σ}
    (h : ((exec env s >>= fun _ => (pure () : TxM σ Unit)) st).res = .ok ()) :
    ∃ i, ((exec env s >>= fun _ => (pure () : TxM σ Unit)) st).events
        = [.stmt s (some i)] := by
  obtain ⟨i, hi, _⟩ := bind_ok_inv h
  rw [bind_ok hi]
  exact ⟨i, by simp [exec_ok hi, pure_apply]⟩

/-- One turn of the loop "Add all XS". -/
theorem xs_turn {env : Env σ} {riverIDMap m : IDMap} {xs : VectorFeature} {st : TxState σ}
    {m2 : IDMap}
    (h : ((parseFloat env xs.FeatureName >>= fun xsStation =>
        assertString (xs.field "RiverReachName") >>= fun l =>
        exec env (.upsertXS (riverIDMap.get l) xsStation (xs.field "CutLineProfileMatch")
          xs.Geometry) >>= fun xsID =>
        (pure (m.set (sprintS (xs.field "RiverReachName") ++ "-" ++ xs.FeatureName) xsID)
          : TxM σ IDMap)) st).res = .ok m2) :
    ∃ i station l, env.parseFloat xs.FeatureName = some station ∧
      xs.field "RiverReachName" = some (.str l) ∧ m2 = m.set (xsKey xs) i ∧
      ((parseFloat env xs.FeatureName >>= fun xsStation =>
        assertString (xs.field "RiverReachName") >>= fun l =>
        exec env (.upsertXS (riverIDMap.get l) xsStation (xs.field "CutLineProfileMatch")
          xs.Geometry) >>= fun xsID =>
        (pure (m.set (sprintS (xs.field "RiverReachName") ++ "-" ++ xs.FeatureName) xsID)
          : TxM σ IDMap)) st).events
        = [.parseFloat xs.FeatureName true,
            .stmt (.upsertXS (riverIDMap.get l) station (xs.field "CutLineProfileMatch")
              xs.Geometry) (some i)] := by
  obtain ⟨station, h1, h⟩ := bind_ok_inv h
  rw [bind_ok h1]
  obtain ⟨p1, p2, p3⟩ := parseFloat_ok h1
  rw [p2] at h ⊢
  obtain ⟨l, h2, h⟩ := bind_ok_inv h
  rw [bind_ok h2]
  obtain ⟨a1, a2, a3⟩ := assertString_ok h2
  rw [a2] at h ⊢
  obtain ⟨i, h3, h⟩ := bind_ok_inv h
  rw [bind_ok h3]
  simp only [pure_apply, Res.ok.injEq] at h
  exact ⟨i, station, l, p1, a1, h.symm, by simp [p3, a3, exec_ok h3, pure_apply]⟩

/-- One turn of the loop "Add all Banks". -/
theorem bank_turn {env : Env σ} {xsIDMap : IDMap} {bank : VectorFeature} {st : TxState σ}
    (h : ((assertString (bank.field "xsName") >>= fun n =>
        parseFloat env bank.FeatureName >>= fun bankStation =>
        exec env (.upsertBanks (xsIDMap.get (sprintS (bank.field "RiverReachName") ++ "-" ++ n))
          bankStation bank.Geometry) >>= fun _ => (pure () : TxM σ Unit)) st).res = .ok ()) :
    ∃ i station n, bank.field "xsName" = some (.str n) ∧
      env.parseFloat bank.FeatureName = some station ∧
      ((assertString (bank.field "xsName") >>= fun n =>
        parseFloat env bank.FeatureName >>= fun bankStation =>
        exec env (.upsertBanks (xsIDMap.get (sprintS (bank.field "RiverReachName") ++ "-" ++ n))
          bankStation bank.Geometry) >>= fun _ => (pure () : TxM σ Unit)) st).events
        = [.parseFloat bank.FeatureName true,
            .stmt (.upsertBanks (xsIDMap.get (bankKey bank n)) station bank.Geometry)
              (some i)] := by
  obtain ⟨n, h2, h⟩ := bind_ok_inv h
  rw [bind_ok h2]
  obtain ⟨a1, a2, a3⟩ := assertString_ok h2
  rw [a2] at h ⊢
  obtain ⟨station, h1, h⟩ := bind_ok_inv h
  rw [bind_ok h1]
  obtain ⟨p1, p2, p3⟩ := parseFloat_ok h1
  rw [p2] at h ⊢
  obtain ⟨i, h3, h⟩ := bind_ok_inv h
  rw [bind_ok h3]
  exact ⟨i, station, n, a1, p1, by simp [p3, a3, exec_ok h3, pure_apply, bankKey]⟩

/-- One turn of the loop "Add all boundary condition lines". -/
theorem bcline_turn {env : Env σ} {areasIDMap : IDMap} {bcl : VectorFeature}
    {st : TxState σ}
    (h : ((assertString (bcl.field "Area") >>= fun a =>
        exec env (.upsertBClines (areasIDMap.get a) bcl.FeatureName bcl.Geometry) >>= fun _ =>
        (pure () : TxM σ Unit)) st).res = .ok ()) :
    ∃ i a, bcl.field "Area" = some (.str a) ∧
      ((assertString (bcl.field "Area") >>= fun a =>
        exec env (.upsertBClines (areasIDMap.get a) bcl.FeatureName bcl.Geometry) >>= fun _ =>
        (pure () : TxM σ Unit)) st).events
        = [.stmt (.upsertBClines (areasIDMap.get a) bcl.FeatureName bcl.Geometry)
            (some i)] := by
  obtain ⟨a, h2, h⟩ := bind_ok_inv h
  rw [bind_ok h2]
  obtain ⟨a1, a2, a3⟩ := assertString_ok h2
  rw [a2] at h ⊢
  obtain ⟨i, h3, h⟩ := bind_ok_inv h
  rw [bind_ok h3]
  exact ⟨i, a, a1, by simp [a3, exec_ok h3, pure_apply]⟩

theorem writes_append (a b : List (Event σ)) : writes (a ++ b) = writes a ++ writes b := by
  unfold writes
  rw [List.filterMap_append]

/-- A loop whose every turn sends exactly one statement sends one statement per element,
in input order. -/
theorem foldlM_writes {α β : Type} (f : β → α → TxM σ β) (R : α → Stmt σ → Prop)
    (hf : ∀ b x st b1, (f b x st).res = .ok b1 → ∃ s, writes (f b x st).events = [s] ∧ R x s)
    (xs : List α) (init : β) (st : TxState σ) (b : β)
    (h : (xs.foldlM f init st).res = .ok b) :
    List.Forall₂ R xs (writes (xs.foldlM f init st).events) := by
  induction xs generalizing init st with
  | nil => simp [pure_apply, writes]
  | cons y ys ih =>
    rw [List.foldlM_cons] at h ⊢
    obtain ⟨a, ha, hfa⟩ := bind_ok_inv h
    rw [bind_ok ha]
    obtain ⟨s, hs, hR⟩ := hf init y st a ha
    simp only [writes_append, hs, List.singleton_append]
    exact List.Forall₂.cons hR (ih a _ hfa)

/-- A successful pass "Add all rivers". -/
theorem addRivers_ok {env : Env σ} {g : Nat} {rivers : List VectorFeature} {st : TxState σ}
    {rm : IDMap} (h : (addRivers env g rivers st).res = .ok rm) :
    (∀ k, k ∉ rivers.map (fun r => r.FeatureName) → rm.lookup k = none) ∧
    (∀ k, k ∈ rivers.map (fun r => r.FeatureName) → ∃ r ∈ rivers, r.FeatureName = k ∧
      ∃ i, rm.lookup k = some i ∧ ∃ s, riverStmt g r = some s ∧
        Event.stmt s (some i) ∈ (addRivers env g rivers st).events) ∧
    (∀ r ∈ rivers, ∃ i s, riverStmt g r = some s ∧
        Event.stmt s (some i) ∈ (addRivers env g rivers st).events) ∧
    List.Forall₂ (fun r s => riverStmt g r = some s) rivers
      (writes (addRivers env g rivers st).events) := by
  unfold addRivers at h ⊢
  have hc := foldlM_collect _ (fun r : VectorFeature => r.FeatureName)
    (fun r i ev => ∃ s, riverStmt g r = some s ∧ ev = Event.stmt s (some i))
    (fun m x st0 m2 h0 => by
      obtain ⟨i, s, h1, h2, h3⟩ := river_turn h0
      exact ⟨i, h1, _, by rw [h3]; exact List.mem_singleton_self _, s, h2, rfl⟩)
    rivers [] st rm h
  refine ⟨fun k hk => by rw [hc.1 k hk]; rfl, ?_, ?_, ?_⟩
  · intro k hk
    obtain ⟨r, hr, hkr, i, hi, ev, hev, s, hs, he⟩ := hc.2 k hk
    exact ⟨r, hr, hkr, i, hi, s, hs, he ▸ hev⟩
  · intro r hr
    obtain ⟨b0, st0, b1, h1, h2⟩ := foldlM_ok_mem _ _ _ _ _ h r hr
    obtain ⟨i, s, _, hs, he⟩ := river_turn h1
    exact ⟨i, s, hs, h2 _ (by rw [he]; exact List.mem_singleton_self _)⟩
  · refine foldlM_writes _ _ (fun b x st0 b1 h0 => ?_) _ _ _ _ h
    obtain ⟨i, s, _, hs, he⟩ := river_turn h0
    exact ⟨s, by rw [he]; rfl, hs⟩

/-- A successful pass "Add all XS". -/
theorem addXS_ok {env : Env σ} {riverIDMap : IDMap} {xss : List VectorFeature}
    {st : TxState σ} {xm : IDMap} (h : (addXS env riverIDMap xss st).res = .ok xm) :
    (∀ k, k ∉ xss.map xsKey → xm.lookup k = none) ∧
    (∀ k, k ∈ xss.map xsKey → ∃ x ∈ xss, xsKey x = k ∧
      ∃ i, xm.lookup k = some i ∧ ∃ station l, env.parseFloat x.FeatureName = some station ∧
        x.field "RiverReachName" = some (.str l) ∧
        Event.stmt (.upsertXS (riverIDMap.get l) station (x.field "CutLineProfileMatch")
          x.Geometry) (some i) ∈ (addXS env riverIDMap xss st).events) ∧
    (∀ x ∈ xss, ∃ i station l, env.parseFloat x.FeatureName = some station ∧
        x.field "RiverReachName" = some (.str l) ∧
        Event.stmt (.upsertXS (riverIDMap.get l) station (x.field "CutLineProfileMatch")
          x.Geometry) (some i) ∈ (addXS env riverIDMap xss st).events) ∧
    List.Forall₂ (fun x s => Issues env 0 0 (.xs x) s) xss
      (writes (addXS env riverIDMap xss st).events) := by
  unfold addXS at h ⊢
  have hc := foldlM_collect _ xsKey
    (fun x i ev => ∃ station l, env.parseFloat x.FeatureName = some station ∧
        x.field "RiverReachName" = some (.str l) ∧
        ev = Event.stmt (.upsertXS (riverIDMap.get l) station (x.field "CutLineProfileMatch")
          x.Geometry) (some i))
    (fun m x st0 m2 h0 => by
      obtain ⟨i, station, l, h1, h2, h3, h4⟩ := xs_turn h0
      exact ⟨i, h3, _, by rw [h4]; simp, station, l, h1, h2, rfl⟩)
    xss [] st xm h
  refine ⟨fun k hk => by rw [hc.1 k hk]; rfl, ?_, ?_, ?_⟩
  · intro k hk
    obtain ⟨x, hx, hkx, i, hi, ev, hev, station, l, h1, h2, he⟩ := hc.2 k hk
    exact ⟨x, hx, hkx, i, hi, station, l, h1, h2, he ▸ hev⟩
  · intro x hx
    obtain ⟨b0, st0, b1, h1, h2⟩ := foldlM_ok_mem _ _ _ _ _ h x hx
    obtain ⟨i, station, l, p1, p2, _, he⟩ := xs_turn h1
    exact ⟨i, station, l, p1, p2, h2 _ (by rw [he]; simp)⟩
  · refine foldlM_writes _ _ (fun b x st0 b1 h0 => ?_) _ _ _ _ h
    obtain ⟨i, station, l, p1, p2, _, he⟩ := xs_turn h0
    exact ⟨_, by rw [he]; rfl, _, station, p1, rfl⟩

/-- A successful pass "Add all Banks". -/
theorem addBanks_ok {env : Env σ} {xsIDMap : IDMap} {banks : List VectorFeature}
    {st : TxState σ} (h : (addBanks env xsIDMap banks st).res = .ok ()) :
    (∀ b ∈ banks, ∃ i station n, b.field "xsName" = some (.str n) ∧
        env.parseFloat b.FeatureName = some station ∧
        Event.stmt (.upsertBanks (xsIDMap.get (bankKey b n)) station b.Geometry) (some i)
          ∈ (addBanks env xsIDMap banks st).events) ∧
    List.Forall₂ (fun b s => Issues env 0 0 (.bank b) s) banks
      (writes (addBanks env xsIDMap banks st).events) := by
  unfold addBanks at h ⊢
  constructor
  · intro b hb
    obtain ⟨b0, st0, b1, h1, h2⟩ := foldlM_ok_mem _ _ _ _ _ h b hb
    obtain ⟨i, station, n, p1, p2, he⟩ := bank_turn h1
    exact ⟨i, station, n, p1, p2, h2 _ (by rw [he]; simp)⟩
  · refine foldlM_writes _ _ (fun b x st0 b1 h0 => ?_) _ _ _ _ h
    obtain ⟨i, station, n, p1, p2, he⟩ := bank_turn h0
    exact ⟨_, by rw [he]; rfl, _, station, p2, rfl⟩

/-- A successful pass over storage areas or 2-D areas. -/
theorem addAreas_ok {env : Env σ} {g : Nat} {is2d : Bool} {m0 : IDMap}
    {areas : List VectorFeature} {st : TxState σ} {am : IDMap}
    (h : (addAreas env g is2d m0 areas st).res = .ok am) :
    (∀ k, k ∉ areas.map (fun a => a.FeatureName) → am.lookup k = m0.lookup k) ∧
    (∀ k, k ∈ areas.map (fun a => a.FeatureName) → ∃ a ∈ areas, a.FeatureName = k ∧
      ∃ i, am.lookup k = some i ∧
        Event.stmt (.upsertAreas g a.FeatureName is2d a.Geometry) (some i)
          ∈ (addAreas env g is2d m0 areas st).events) ∧
    List.Forall₂ (fun a s => s = Stmt.upsertAreas g a.FeatureName is2d a.Geometry) areas
      (writes (addAreas env g is2d m0 areas st).events) := by
  unfold addAreas at h ⊢
  have hc := foldlM_collect _ (fun a : VectorFeature => a.FeatureName)
    (fun a i ev => ev = Event.stmt (.upsertAreas g a.FeatureName is2d a.Geometry) (some i))
    (fun m x st0 m2 h0 => by
      obtain ⟨i, h1, h2⟩ := exec_set_turn h0
      exact ⟨i, h1, _, by rw [h2]; exact List.mem_singleton_self _, rfl⟩)
    areas m0 st am h
  refine ⟨hc.1, ?_, ?_⟩
  · intro k hk
    obtain ⟨a, ha, hka, i, hi, ev, hev, he⟩ := hc.2 k hk
    exact ⟨a, ha, hka, i, hi, he ▸ hev⟩
  · refine foldlM_writes _ _ (fun b x st0 b1 h0 => ?_) _ _ _ _ h
    obtain ⟨i, _, he⟩ := exec_set_turn h0
    exact ⟨_, by rw [he]; rfl, rfl⟩

/-- A successful pass "Add all connections". -/
theorem addConnections_ok {env : Env σ} {g : Nat} {conns : List VectorFeature}
    {st : TxState σ} (h : (addConnections env g conns st).res = .ok ()) :
    List.Forall₂ (fun c s => Issues env 0 g (.connection c) s) conns
      (writes (addConnections env g conns st).events) := by
  unfold addConnections at h ⊢
  refine foldlM_writes _ _ (fun b x st0 b1 h0 => ?_) _ _ _ _ h
  obtain ⟨i, he⟩ := exec_unit_turn h0
  exact ⟨_, by rw [he]; rfl, rfl⟩

/-- A successful pass "Add all breakLines". -/
theorem addBreakLines_ok {env : Env σ} {g : Nat} {bls : List VectorFeature}
    {st : TxState σ} (h : (addBreakLines env g bls st).res = .ok ()) :
    List.Forall₂ (fun c s => Issues env 0 g (.breakline c) s) bls
      (writes (addBreakLines env g bls st).events) := by
  unfold addBreakLines at h ⊢
  refine foldlM_writes _ _ (fun b x st0 b1 h0 => ?_) _ _ _ _ h
  obtain ⟨i, he⟩ := exec_unit_turn h0
  exact ⟨_, by rw [he]; rfl, rfl⟩

/-- A successful pass "Add all boundary condition lines". -/
theorem addBCLines_ok {env : Env σ} {areasIDMap : IDMap} {bcls : List VectorFeature}
    {st : TxState σ} (h : (addBCLines env areasIDMap bcls st).res = .ok ()) :
    (∀ b ∈ bcls, ∃ i a, b.field "Area" = some (.str a) ∧
        Event.stmt (.upsertBClines (areasIDMap.get a) b.FeatureName b.Geometry) (some i)
          ∈ (addBCLines env areasIDMap bcls st).events) ∧
    List.Forall₂ (fun b s => Issues env 0 0 (.bcline b) s) bcls
      (writes (addBCLines env areasIDMap bcls st).events) := by
  unfold addBCLines at h ⊢
  constructor
  · intro b hb
    obtain ⟨b0, st0, b1, h1, h2⟩ := foldlM_ok_mem _ _ _ _ _ h b hb
    obtain ⟨i, a, p1, he⟩ := bcline_turn h1
    exact ⟨i, a, p1, h2 _ (by rw [he]; simp)⟩
  · refine foldlM_writes _ _ (fun b x st0 b1 h0 => ?_) _ _ _ _ h
    obtain ⟨i, a, p1, he⟩ := bcline_turn h0
    exact ⟨_, by rw [he]; rfl, _, rfl⟩

/-- A successful pass over the features of one geometry file: every loop returned, each
from the state the one before it left, and the steps of the pass are theirs in order. -/
theorem upsertFeatures_ok {env : Env σ} {g : Nat} {F : Features} {st : TxState σ}
    (h : (upsertFeatures env g F st).res = .ok ()) :
    ∃ (rm xm am1 am2 : IDMap) (st1 st2 st3 st4 st5 st6 st7 : TxState σ),
      (addRivers env g F.Rivers st).res = .ok rm ∧
      (addXS env rm F.XS st1).res = .ok xm ∧
      (addBanks env xm F.Banks st2).res = .ok () ∧
      (addAreas env g false [] F.StorageAreas st3).res = .ok am1 ∧
      (addAreas env g true am1 F.TwoDAreas st4).res = .ok am2 ∧
      (addConnections env g F.Connections st5).res = .ok () ∧
      (addBreakLines env g F.BreakLines st6).res = .ok () ∧
      (addBCLines env am2 F.BCLines st7).res = .ok () ∧
      (upsertFeatures env g F st).events =
        (addRivers env g F.Rivers st).events ++ ((addXS env rm F.XS st1).events ++
        ((addBanks env xm F.Banks st2).events ++
        ((addAreas env g false [] F.StorageAreas st3).events ++
        ((addAreas env g true am1 F.TwoDAreas st4).events ++
        ((addConnections env g F.Connections st5).events ++
        ((addBreakLines env g F.BreakLines st6).events ++
        (addBCLines env am2 F.BCLines st7).events)))))) := by
  unfold upsertFeatures at h ⊢
  obtain ⟨rm, h1, h⟩ := bind_ok_inv h
  rw [bind_ok h1]
  obtain ⟨xm, h2, h⟩ := bind_ok_inv h
  rw [bind_ok h2]
  obtain ⟨u3, h3, h⟩ := bind_ok_inv h
  rw [bind_ok h3]
  obtain ⟨am1, h4, h⟩ := bind_ok_inv h
  rw [bind_ok h4]
  obtain ⟨am2, h5, h⟩ := bind_ok_inv h
  rw [bind_ok h5]
  obtain ⟨u6, h6, h⟩ := bind_ok_inv h
  rw [bind_ok h6]
  obtain ⟨u7, h7, h⟩ := bind_ok_inv h
  rw [bind_ok h7]
  exact ⟨rm, xm, am1, am2, _, _, _, _, _, _, _, h1, h2, h3, h4, h5, h6, h7, h, rfl⟩

theorem forall₂_append {α β : Type} {R : α → β → Prop} {l1 l3 : List α} {l2 l4 : List β}
    (h1 : List.Forall₂ R l1 l2) (h2 : List.Forall₂ R l3 l4) :
    List.Forall₂ R (l1 ++ l3) (l2 ++ l4) := by
  induction h1 with
  | nil => exact h2
  | cons h _ ih => exact List.Forall₂.cons h ih

theorem forall₂_map_left {α β γ : Type} {R : γ → β → Prop} (c : α → γ) {l : List α}
    {ws : List β} (h : List.Forall₂ (fun x s => R (c x) s) l ws) :
    List.Forall₂ R (l.map c) ws := by
  induction h with
  | nil => exact List.Forall₂.nil
  | cons h _ ih => exact List.Forall₂.cons h ih

/-- The statements of a successful pass over the features of a geometry file are the
upserts of its features, class by class in the fixed order, each class in input order. -/
theorem upsertFeatures_writes {env : Env σ} {modelID g : Nat} {F : Features} {st : TxState σ}
    (h : (upsertFeatures env g F st).res = .ok ()) (gf : GeometryFile) :
    List.Forall₂ (Issues env modelID g) (expectedOrder gf F).tail
      (writes (upsertFeatures env g F st).events) := by
  obtain ⟨rm, xm, am1, am2, st1, st2, st3, st4, st5, st6, st7, h1, h2, h3, h4, h5, h6, h7, h8,
    he⟩ := upsertFeatures_ok h
  rw [he]
  simp only [writes_append, expectedOrder, List.tail_cons]
  exact forall₂_append (forall₂_map_left _ (addRivers_ok h1).2.2.2)
    (forall₂_append (forall₂_map_left _ (addXS_ok h2).2.2.2)
    (forall₂_append (forall₂_map_left _ (addBanks_ok h3).2)
    (forall₂_append (forall₂_map_left _ (addAreas_ok h4).2.2)
    (forall₂_append (forall₂_map_left _ (addAreas_ok h5).2.2)
    (forall₂_append (forall₂_map_left _ (addConnections_ok h6))
    (forall₂_append (forall₂_map_left _ (addBreakLines_ok h7))
      (forall₂_map_left _ (addBCLines_ok h8).2)))))))

/-- A successful pass over one geometry file: its own upsert returned `g`, the feature
pass for `g` returned, and the steps are the upsert followed by those of the pass. -/
theorem upsertGeometryFile_ok {env : Env σ} {modelID : Nat}
    {geodata : List (String × Features)} {gf : GeometryFile} {st : TxState σ}
    (h : (upsertGeometryFile env modelID geodata gf st).res = .ok ()) :
    ∃ g st1, (upsertFeatures env g (featuresOf geodata (filepathBase gf.Path)) st1).res
        = .ok () ∧
      (upsertGeometryFile env modelID geodata gf st).events =
        .stmt (geometryStmt modelID gf) (some g) ::
          (upsertFeatures env g (featuresOf geodata (filepathBase gf.Path)) st1).events := by
  unfold upsertGeometryFile at h ⊢
  obtain ⟨g, h1, h2⟩ := bind_ok_inv h
  rw [bind_ok h1, exec_ok h1]
  exact ⟨g, _, h2, rfl⟩

/-- Within one pass over the features of a geometry file, statements with the same
natural key were answered with the same identifier. -/
theorem same_key_same_id (env : Env σ) (g : Nat) (F : Features) (st : TxState σ)
    {s s2 : Stmt σ} {i j : Nat}
    (h1 : Event.stmt s (some i) ∈ (upsertFeatures env g F st).events)
    (h2 : Event.stmt s2 (some j) ∈ (upsertFeatures env g F st).events)
    (hk : s.key = s2.key) : i = j := by
  have hrel : Rel env env (upsertFeatures env g F) (upsertFeatures env g F) :=
    rel_upsertFeatures rfl g F
  have hf := (faithful_of_rel hrel st).2
  have a := hf s i h1
  have b := hf s2 j h2
  rw [hk, b] at a
  exact (Option.some.inj a).symm

/-- In a successful pass each cross-section is sent with the identifier returned for
every river whose unsplit name is its `RiverReachName`. -/
theorem xs_parent_is_river {env : Env σ} {g : Nat} {F : Features} {st : TxState σ}
    (h : (upsertFeatures env g F st).res = .ok ()) :
    ∀ x ∈ F.XS, ∀ r ∈ F.Rivers, x.field "RiverReachName" = some (.str r.FeatureName) →
      ∃ i s station xid, riverStmt g r = some s ∧
        Event.stmt s (some i) ∈ (upsertFeatures env g F st).events ∧
        (∀ j, Event.stmt s (some j) ∈ (upsertFeatures env g F st).events → j = i) ∧
        env.parseFloat x.FeatureName = some station ∧
        Event.stmt (.upsertXS i station (x.field "CutLineProfileMatch") x.Geometry) (some xid)
          ∈ (upsertFeatures env g F st).events := by
  obtain ⟨rm, xm, am1, am2, st1, st2, st3, st4, st5, st6, st7, h1, h2, h3, h4, h5, h6, h7, h8,
    he⟩ := upsertFeatures_ok h
  intro x hx r hr hxr
  obtain ⟨_, hr2, hr3, _⟩ := addRivers_ok h1
  obtain ⟨_, _, hx3, _⟩ := addXS_ok h2
  obtain ⟨i, s, hs, hev⟩ := hr3 r hr
  obtain ⟨r2, _, hn, i0, hi0, s0, hs0, hev0⟩ :=
    hr2 r.FeatureName (List.mem_map.mpr ⟨r, hr, rfl⟩)
  obtain ⟨xid, station, l, hp, hl, hxev⟩ := hx3 x hx
  have hE1 : ∀ ev, ev ∈ (addRivers env g F.Rivers st).events →
      ev ∈ (upsertFeatures env g F st).events := fun ev hev => by
    rw [he]; exact List.mem_append_left _ hev
  have hE2 : ∀ ev, ev ∈ (addXS env rm F.XS st1).events →
      ev ∈ (upsertFeatures env g F st).events := fun ev hev => by
    rw [he]; exact List.mem_append_right _ (List.mem_append_left _ hev)
  have hi : i0 = i :=
    same_key_same_id env g F st (hE1 _ hev0) (hE1 _ hev) (riverStmt_key hs0 hs hn)
  have hl2 : l = r.FeatureName := by
    rw [hl] at hxr
    simpa using hxr
  have hget : rm.get l = i := by
    rw [hl2]
    unfold IDMap.get
    rw [hi0, hi]
    rfl
  rw [hget] at hxev
  exact ⟨i, s, station, xid, hs, hE1 _ hev,
    fun j hj => same_key_same_id env g F st hj (hE1 _ hev) rfl, hp, hE2 _ hxev⟩

/-- In a successful pass each bank is sent with the identifier returned for the
cross-section its `RiverReachName` and `xsName` name, provided no other cross-section of
the file is filed under the same key. -/
theorem bank_parent_is_xs {env : Env σ} {g : Nat} {F : Features} {st : TxState σ}
    (h : (upsertFeatures env g F st).res = .ok ()) :
    ∀ b ∈ F.Banks, ∀ x ∈ F.XS, b.field "RiverReachName" = x.field "RiverReachName" →
      b.field "xsName" = some (.str x.FeatureName) →
      (∀ y ∈ F.XS, xsKey y = xsKey x →
        y.field "RiverReachName" = x.field "RiverReachName" ∧ y.FeatureName = x.FeatureName) →
      ∃ riverID station i bankStation bid,
        env.parseFloat x.FeatureName = some station ∧
        Event.stmt (.upsertXS riverID station (x.field "CutLineProfileMatch") x.Geometry)
          (some i) ∈ (upsertFeatures env g F st).events ∧
        (∀ c geom j, Event.stmt (.upsertXS riverID station c geom) (some j)
          ∈ (upsertFeatures env g F st).events → j = i) ∧
        env.parseFloat b.FeatureName = some bankStation ∧
        Event.stmt (.upsertBanks i bankStation b.Geometry) (some bid)
          ∈ (upsertFeatures env g F st).events := by
  obtain ⟨rm, xm, am1, am2, st1, st2, st3, st4, st5, st6, st7, h1, h2, h3, h4, h5, h6, h7, h8,
    he⟩ := upsertFeatures_ok h
  intro b hb x hx hrr hname hinj
  obtain ⟨_, hx2, hx3, _⟩ := addXS_ok h2
  obtain ⟨hb1, _⟩ := addBanks_ok h3
  have hE2 : ∀ ev, ev ∈ (addXS env rm F.XS st1).events →
      ev ∈ (upsertFeatures env g F st).events := fun ev hev => by
    rw [he]; exact List.mem_append_right _ (List.mem_append_left _ hev)
  have hE3 : ∀ ev, ev ∈ (addBanks env xm F.Banks st2).events →
      ev ∈ (upsertFeatures env g F st).events := fun ev hev => by
    rw [he]
    exact List.mem_append_right _ (List.mem_append_right _ (List.mem_append_left _ hev))
  obtain ⟨i, station, l, hp, hl, hxev⟩ := hx3 x hx
  obtain ⟨y, hy, hky, i0, hi0, stationY, lY, hpY, hlY, hyev⟩ :=
    hx2 (xsKey x) (List.mem_map.mpr ⟨x, hx, rfl⟩)
  obtain ⟨hyrr, hyn⟩ := hinj y hy hky
  have e1 : lY = l := by
    rw [hyrr, hl] at hlY
    simpa using hlY.symm
  have e2 : stationY = station := by
    rw [hyn, hp] at hpY
    exact (Option.some.inj hpY).symm
  rw [e1, e2] at hyev
  have hi : i0 = i := same_key_same_id env g F st (hE2 _ hyev) (hE2 _ hxev) rfl
  obtain ⟨bid, bankStation, n, hn, hbp, hbev⟩ := hb1 b hb
  have e3 : n = x.FeatureName := by
    rw [hname] at hn
    simpa using hn.symm
  have hget : xm.get (bankKey b n) = i := by
    have : bankKey b n = xsKey x := by rw [e3]; unfold bankKey xsKey; rw [hrr]
    rw [this]
    unfold IDMap.get
    rw [hi0, hi]
    rfl
  rw [hget] at hbev
  exact ⟨rm.get l, station, i, bankStation, bid, hp, hE2 _ hxev,
    fun c geom j hj => same_key_same_id env g F st hj (hE2 _ hxev) rfl, hbp, hE3 _ hbev⟩

/-! ## Where a boundary-condition line statement comes from -/

theorem bind_events_mem {α β : Type} {m : TxM σ α} {f : α → TxM σ β} {st : TxState σ}
    {ev : Event σ} (h : ev ∈ ((m >>= f) st).events) :
    ev ∈ (m st).events ∨ ∃ a, (m st).res = .ok a ∧ ev ∈ (f a (m st).st).events := by
  rcases res_cases m st with ⟨a, ha⟩ | ⟨e, he⟩ | hc
  · rw [bind_ok ha] at h
    rcases List.mem_append.mp h with h | h
    · exact Or.inl h
    · exact Or.inr ⟨a, ha, h⟩
  · rw [bind_err he] at h; exact Or.inl h
  · rw [bind_crash hc] at h; exact Or.inl h

theorem emits_pure {α : Type} (Q : Event σ → Prop) (a : α) : Emits Q (pure a : TxM σ α) := by
  intro st ev hev
  simp [pure_apply] at hev

theorem emits_bind {α β : Type} {Q : Event σ → Prop} {m : TxM σ α} {f : α → TxM σ β}
    (hm : Emits Q m) (hf : ∀ a, Emits Q (f a)) : Emits Q (m >>= f) := by
  intro st ev hev
  rcases bind_events_mem hev with h | ⟨a, _, h⟩
  · exact hm st ev h
  · exact hf a _ ev h

theorem emits_foldlM {α β : Type} {Q : Event σ → Prop} (f : β → α → TxM σ β)
    (hf : ∀ b a, Emits Q (f b a)) (xs : List α) (init : β) : Emits Q (xs.foldlM f init) := by
  intro st ev hev
  obtain ⟨x, _, b0, st0, h⟩ := foldlM_events_mem f xs init st ev hev
  exact hf b0 x st0 ev h

theorem emits_exec {Q : Event σ → Prop} (env : Env σ) (s : Stmt σ)
    (h : ∀ r, Q (.stmt s r)) : Emits Q (exec env s) := by
  intro st ev hev
  obtain ⟨r, hr⟩ := exec_events env s st
  rw [hr] at hev
  rw [List.mem_singleton.mp hev]
  exact h r

theorem emits_parseFloat (env : Env σ) (s : String) :
    Emits NotBCLine (parseFloat env s) := by
  intro st ev hev
  unfold parseFloat at hev
  rw [call_events] at hev
  rw [List.mem_singleton.mp hev]
  intro s r h
  cases h

theorem emits_assertString (Q : Event σ → Prop) (v : Option FieldVal) :
    Emits Q (assertString v : TxM σ String) := by
  intro st ev hev
  rw [assertString_events] at hev
  cases hev

theorem emits_upsertRiver (env : Env σ) (river : VectorFeature) (g : Nat) :
    Emits NotBCLine (upsertRiver env river g) := by
  intro st ev hev
  cases h0 : (stringsSplit river.FeatureName ',')[0]? with
  | none => simp [upsertRiver, h0, TxM.panic] at hev
  | some r0 =>
    cases h1 : (stringsSplit river.FeatureName ',')[1]? with
    | none => simp [upsertRiver, h0, h1, TxM.panic] at hev
    | some r1 =>
      simp only [upsertRiver, h0, h1] at hev
      exact emits_exec env _ (fun r s r2 h => by cases h; simp [Stmt.key, Key.table]) st ev hev

theorem notBCLine_stmt {s : Stmt σ} (h : s.key.table ≠ .bclines) (r : Option Nat) :
    NotBCLine (Event.stmt s r) := by
  intro s2 r2 h2
  cases h2
  exact h

theorem emits_addRivers (env : Env σ) (g : Nat) (l : List VectorFeature) :
    Emits NotBCLine (addRivers env g l) :=
  emits_foldlM _ (fun _ _ => emits_bind (emits_upsertRiver _ _ _) (fun _ => emits_pure _ _)) _ _

theorem emits_addXS (env : Env σ) (m : IDMap) (l : List VectorFeature) :
    Emits NotBCLine (addXS env m l) :=
  emits_foldlM _ (fun _ _ => emits_bind (emits_parseFloat _ _) (fun _ =>
    emits_bind (emits_assertString _ _) (fun _ =>
    emits_bind (emits_exec _ _ (notBCLine_stmt (by simp [Stmt.key, Key.table])))
      (fun _ => emits_pure _ _)))) _ _

theorem emits_addBanks (env : Env σ) (m : IDMap) (l : List VectorFeature) :
    Emits NotBCLine (addBanks env m l) :=
  emits_foldlM _ (fun _ _ => emits_bind (emits_assertString _ _) (fun _ =>
    emits_bind (emits_parseFloat _ _) (fun _ =>
    emits_bind (emits_exec _ _ (notBCLine_stmt (by simp [Stmt.key, Key.table])))
      (fun _ => emits_pure _ _)))) _ _

theorem emits_addAreas (env : Env σ) (g : Nat) (b : Bool) (m : IDMap)
    (l : List VectorFeature) : Emits NotBCLine (addAreas env g b m l) :=
  emits_foldlM _ (fun _ _ =>
    emits_bind (emits_exec _ _ (notBCLine_stmt (by simp [Stmt.key, Key.table])))
      (fun _ => emits_pure _ _)) _ _

theorem emits_addConnections (env : Env σ) (g : Nat) (l : List VectorFeature) :
    Emits NotBCLine (addConnections env g l) :=
  emits_foldlM _ (fun _ _ =>
    emits_bind (emits_exec _ _ (notBCLine_stmt (by simp [Stmt.key, Key.table])))
      (fun _ => emits_pure _ _)) _ _

theorem emits_addBreakLines (env : Env σ) (g : Nat) (l : List VectorFeature) :
    Emits NotBCLine (addBreakLines env g l) :=
  emits_foldlM _ (fun _ _ =>
    emits_bind (emits_exec _ _ (notBCLine_stmt (by simp [Stmt.key, Key.table])))
      (fun _ => emits_pure _ _)) _ _

/-- Every step of the loop "Add all boundary condition lines" is the upsert of one of the
lines, sent with what `areasIDMap` holds for the line's `Area`. -/
theorem addBCLines_origin (env : Env σ) (areasIDMap : IDMap) (bcls : List VectorFeature)
    (st : TxState σ) :
    ∀ ev ∈ (addBCLines env areasIDMap bcls st).events, ∃ b ∈ bcls, ∃ a r,
      b.field "Area" = some (.str a) ∧
      ev = .stmt (.upsertBClines (areasIDMap.get a) b.FeatureName b.Geometry) r := by
  intro ev hev
  unfold addBCLines at hev
  obtain ⟨b, hb, b0, st0, h⟩ := foldlM_events_mem _ _ _ _ ev hev
  refine ⟨b, hb, ?_⟩
  rcases bind_events_mem h with h | ⟨a, ha, h⟩
  · rw [assertString_events] at h; cases h
  · obtain ⟨a1, a2, _⟩ := assertString_ok ha
    rcases bind_events_mem h with h | ⟨i, _, h⟩
    · obtain ⟨r, hr⟩ := exec_events env
        (.upsertBClines (areasIDMap.get a) b.FeatureName b.Geometry) (assertString
          (b.field "Area") st0 : Out σ String).st
      rw [hr] at h
      exact ⟨a, r, a1, List.mem_singleton.mp h⟩
    · simp [pure_apply] at h

/-- What `areasIDMap` holds after both area passes have returned. -/
theorem areas_map {env : Env σ} {g : Nat} {SA TA : List VectorFeature} {st3 st4 : TxState σ}
    {am1 am2 : IDMap} (h4 : (addAreas env g false [] SA st3).res = .ok am1)
    (h5 : (addAreas env g true am1 TA st4).res = .ok am2) (a : String) :
    (a ∈ (SA ++ TA).map (fun x => x.FeatureName) →
      ∃ is2d geom, Event.stmt (.upsertAreas g a is2d geom) (some (am2.get a)) ∈
        (addAreas env g false [] SA st3).events ++ (addAreas env g true am1 TA st4).events) ∧
    (a ∉ (SA ++ TA).map (fun x => x.FeatureName) → am2.get a = 0) := by
  obtain ⟨s1, s2, _⟩ := addAreas_ok h4
  obtain ⟨t1, t2, _⟩ := addAreas_ok h5
  constructor
  · intro ha
    by_cases hT : a ∈ TA.map (fun x => x.FeatureName)
    · obtain ⟨x, _, hx, i, hi, hev⟩ := t2 a hT
      refine ⟨true, x.Geometry, List.mem_append_right _ ?_⟩
      unfold IDMap.get
      rw [hi, ← hx]
      exact hev
    · have hS : a ∈ SA.map (fun x => x.FeatureName) := by
        simp only [List.map_append, List.mem_append] at ha
        rcases ha with ha | ha
        · exact ha
        · exact absurd ha hT
      obtain ⟨x, _, hx, i, hi, hev⟩ := s2 a hS
      refine ⟨false, x.Geometry, List.mem_append_left _ ?_⟩
      unfold IDMap.get
      rw [t1 a hT, hi, ← hx]
      exact hev
  · intro ha
    simp only [List.map_append, List.mem_append, not_or] at ha
    unfold IDMap.get
    rw [t1 a ha.2, s1 a ha.1]
    rfl

/-- Every boundary-condition line statement of a pass over the features of a geometry
file, whatever the result of the pass, is the upsert of one of the file's lines; when the
line's `Area` names a storage or 2-D area of the file its `area_id` is the identifier
returned for that area's upsert, otherwise it is 0. -/
theorem bcline_origin (env : Env σ) (g : Nat) (F : Features) (st : TxState σ)
    (areaID : Nat) (n : String) (geo : Geometry) (r : Option Nat)
    (h : Event.stmt (.upsertBClines areaID n geo) r ∈ (upsertFeatures env g F st).events) :
    ∃ b ∈ F.BCLines, ∃ a, b.field "Area" = some (.str a) ∧ n = b.FeatureName ∧
      geo = b.Geometry ∧
      (a ∈ (F.StorageAreas ++ F.TwoDAreas).map (fun x => x.FeatureName) →
        (∃ is2d geom, Event.stmt (.upsertAreas g a is2d geom) (some areaID)
          ∈ (upsertFeatures env g F st).events) ∧
        ∀ is2d geom j, Event.stmt (.upsertAreas g a is2d geom) (some j)
          ∈ (upsertFeatures env g F st).events → j = areaID) ∧
      (a ∉ (F.StorageAreas ++ F.TwoDAreas).map (fun x => x.FeatureName) → areaID = 0) := by
  have hnot : ∀ {α : Type} (m : TxM σ α) (st0 : TxState σ), Emits NotBCLine m →
      Event.stmt (.upsertBClines areaID n geo) r ∉ (m st0).events :=
    fun m st0 hm hmem => hm st0 _ hmem _ _ rfl rfl
  have hall := h
  unfold upsertFeatures at h
  rcases bind_events_mem h with h | ⟨rm, h1, h⟩
  · exact absurd h (hnot _ _ (emits_addRivers _ _ _))
  rcases bind_events_mem h with h | ⟨xm, h2, h⟩
  · exact absurd h (hnot _ _ (emits_addXS _ _ _))
  rcases bind_events_mem h with h | ⟨u3, h3, h⟩
  · exact absurd h (hnot _ _ (emits_addBanks _ _ _))
  rcases bind_events_mem h with h | ⟨am1, h4, h⟩
  · exact absurd h (hnot _ _ (emits_addAreas _ _ _ _ _))
  rcases bind_events_mem h with h | ⟨am2, h5, h⟩
  · exact absurd h (hnot _ _ (emits_addAreas _ _ _ _ _))
  rcases bind_events_mem h with h | ⟨u6, h6, h⟩
  · exact absurd h (hnot _ _ (emits_addConnections _ _ _))
  rcases bind_events_mem h with h | ⟨u7, h7, h⟩
  · exact absurd h (hnot _ _ (emits_addBreakLines _ _ _))
  obtain ⟨b, hb, a, r2, ha, hev⟩ := addBCLines_origin _ _ _ _ _ h
  simp only [Event.stmt.injEq, Stmt.upsertBClines.injEq] at hev
  obtain ⟨⟨hid, hn, hgeo⟩, _⟩ := hev
  obtain ⟨m1, m2⟩ := areas_map h4 h5 a
  refine ⟨b, hb, a, ha, hn, hgeo, ?_, fun hna => by rw [hid]; exact m2 hna⟩
  intro hmem
  obtain ⟨is2d, geom, hev2⟩ := m1 hmem
  rw [← hid] at hev2
  have hin : Event.stmt (.upsertAreas g a is2d geom) (some areaID)
      ∈ (upsertFeatures env g F st).events := by
    unfold upsertFeatures
    rw [bind_ok h1, bind_ok h2, bind_ok h3, bind_ok h4, bind_ok h5]
    simp only [List.mem_append]
    rcases List.mem_append.mp hev2 with hq | hq
    · exact Or.inr (Or.inr (Or.inr (Or.inl hq)))
    · exact Or.inr (Or.inr (Or.inr (Or.inr (Or.inl hq))))
  exact ⟨⟨is2d, geom, hin⟩, fun i2 g2 j hj => same_key_same_id env g F st hj hin rfl⟩

/-! ## A cross-section whose name is not a number -/

theorem commitLast_of_pre {α : Type} {m : TxM σ α} (h : Pre m) : CommitLast m := by
  intro st
  obtain ⟨h1, h2, _⟩ := h st
  exact ⟨fun hc => Or.inl (by rw [← h1]; exact hc), fun hc => absurd hc h2⟩

theorem commitLast_bind {α β : Type} {m : TxM σ α} {f : α → TxM σ β} (hm : Pre m)
    (hf : ∀ a, CommitLast (f a)) : CommitLast (m >>= f) := by
  intro st
  obtain ⟨h1, h2, _⟩ := hm st
  rcases res_cases m st with ⟨a, ha⟩ | ⟨e, he⟩ | hc
  · rw [bind_ok ha]
    obtain ⟨g1, g2⟩ := hf a (m st).st
    constructor
    · intro hcm
      rcases g1 hcm with g | g
      · exact Or.inl (by rw [← h1]; exact g)
      · exact Or.inr g
    · intro hcm
      rcases List.mem_append.mp hcm with hcm | hcm
      · exact absurd hcm h2
      · exact g2 hcm
  · rw [bind_err he]
    exact ⟨fun hcm => Or.inl (by rw [← h1]; exact hcm), fun hcm => absurd hcm h2⟩
  · rw [bind_crash hc]
    exact ⟨fun hcm => Or.inl (by rw [← h1]; exact hcm), fun hcm => absurd hcm h2⟩

theorem commitLast_commit (env : Env σ) : CommitLast (commit env) := by
  intro st
  unfold commit
  by_cases h : env.commitOk st.store = true
  · rw [if_pos h]
    exact ⟨fun _ => Or.inr ⟨(), rfl⟩, fun _ => ⟨(), rfl⟩⟩
  · rw [if_neg h]
    exact ⟨fun hc => Or.inl hc, fun hc => by simp at hc⟩

theorem commitLast_modelGeometryTx (env : Env σ) (f : String) :
    CommitLast (modelGeometryTx env f) := by
  unfold modelGeometryTx
  refine commitLast_bind (pre_getModelID _) (fun modelID =>
    commitLast_bind (pre_newRasModel _ _) (fun rm => ?_))
  by_cases h : rm.isGeospatial = true
  · simp only [h, if_true]
    exact commitLast_bind (pre_geospatialData _) (fun _ =>
      commitLast_bind (pre_geometryFiles _ _ _ _) (fun _ => commitLast_commit _))
  · simp only [h]
    exact commitLast_of_pre (pre_pure _)

/-- A run over a geometry file holding a cross-section whose name does not parse never
returns success: a successful run has parsed the name of every cross-section of every
geometry file of the model. -/
theorem modelGeometryTx_ok_parses {env : Env σ} {f : String} {st : TxState σ}
    {rm : RasModel} {geodata : List (String × Features)} {gf : GeometryFile}
    {x : VectorFeature} (hrm : env.newRasModel f = some rm) (hgeo : rm.isGeospatial = true)
    (hgd : rm.geospatialData = some geodata) (hgf : gf ∈ rm.GeomFiles)
    (hx : x ∈ (featuresOf geodata (filepathBase gf.Path)).XS)
    (h : (modelGeometryTx env f st).res = .ok ()) :
    ∃ station, env.parseFloat x.FeatureName = some station := by
  unfold modelGeometryTx at h
  obtain ⟨modelID, _, h⟩ := bind_ok_inv h
  obtain ⟨rm2, h2, h⟩ := bind_ok_inv h
  have e2 : rm2 = rm := by
    unfold newRasModel at h2
    have := call_ok h2
    rw [hrm] at this
    exact (Option.some.inj this).symm
  subst e2
  simp only [hgeo, if_true] at h
  obtain ⟨gd, h3, h⟩ := bind_ok_inv h
  have e3 : gd = geodata := by
    unfold geospatialData at h3
    have := call_ok h3
    rw [hgd] at this
    exact (Option.some.inj this).symm
  subst e3
  obtain ⟨u, h4, _⟩ := bind_ok_inv h
  obtain ⟨b0, st0, b1, h5, _⟩ := foldlM_ok_mem _ _ _ _ _ h4 gf hgf
  obtain ⟨g, st1, h6, _⟩ := upsertGeometryFile_ok h5
  obtain ⟨rmap, xm, am1, am2, s1, s2, s3, s4, s5, s6, s7, _, k2, _⟩ := upsertFeatures_ok h6
  obtain ⟨i, station, l, hp, _⟩ := (addXS_ok k2).2.2.1 x hx
  exact ⟨station, hp⟩

/-- Whatever else the file holds, a run of `upsertModelGeometry` over a geometry file with
a cross-section whose name does not parse ends with an error or a panic, records no
successful commit, and leaves the store as it was. -/
theorem bad_cross_section_never_commits (env : Env σ) (f : String) (db : Store σ)
    (rm : RasModel) (geodata : List (String × Features)) (gf : GeometryFile)
    (x : VectorFeature) (hrm : env.newRasModel f = some rm) (hgeo : rm.isGeospatial = true)
    (hgd : rm.geospatialData = some geodata) (hgf : gf ∈ rm.GeomFiles)
    (hx : x ∈ (featuresOf geodata (filepathBase gf.Path)).XS)
    (hp : env.parseFloat x.FeatureName = none) :
    ((∃ e, (upsertModelGeometry env f db).outcome = .err e) ∨
        (upsertModelGeometry env f db).outcome = .crash) ∧
      Event.commit true ∉ (upsertModelGeometry env f db).trace ∧
      (upsertModelGeometry env f db).db = db := by
  unfold upsertModelGeometry runTx
  by_cases hb : env.beginOk = true
  · simp only [hb, if_true]
    have hnok : ∀ a, (modelGeometryTx env f ⟨db, false⟩).res ≠ .ok a := by
      intro a h
      cases a
      obtain ⟨station, hs⟩ := modelGeometryTx_ok_parses hrm hgeo hgd hgf hx h
      rw [hp] at hs
      cases hs
    obtain ⟨c1, c2⟩ := commitLast_modelGeometryTx env f ⟨db, false⟩
    refine ⟨?_, ?_, ?_⟩
    · rcases res_cases (modelGeometryTx env f) ⟨db, false⟩ with ⟨a, ha⟩ | he | hc
      · exact absurd ha (hnok a)
      · exact Or.inl he
      · exact Or.inr hc
    · intro hc
      obtain ⟨a, ha⟩ := c2 hc
      exact hnok a ha
    · by_cases hc : (modelGeometryTx env f ⟨db, false⟩).st.committed = true
      · rcases c1 hc with h | ⟨a, ha⟩
        · cases h
        · exact absurd ha (hnok a)
      · rw [if_neg hc]
  · simp only [hb]
    exact ⟨Or.inr rfl, by simp, rfl⟩

/-! ## A river name without a comma -/

theorem splitChars_of_not_mem (sep : Char) (cs : List Char) (h : sep ∉ cs) :
    splitChars sep cs = [cs] := by
  induction cs with
  | nil => rfl
  | cons c cs ih =>
    have hc : c ≠ sep := fun e => h (by simp [e])
    have hcs : sep ∉ cs := fun e => h (by simp [e])
    simp [splitChars, hc, ih hcs]

/-- On a river whose name holds no comma, `upsertRiver` panics at `riverReach[1]`: it
returns no error and sends no statement. -/
theorem upsertRiver_crash_of_no_comma (env : Env σ) (river : VectorFeature) (g : Nat)
    (st : TxState σ) (h : ',' ∉ river.FeatureName.data) :
    upsertRiver env river g st = ⟨.crash, st, []⟩ := by
  unfold upsertRiver
  simp [stringsSplit, splitChars_of_not_mem _ _ h, TxM.panic]

/-! ## The model name and the source path -/

theorem dropWhile_cases {α : Type} (p : α → Bool) (l : List α) :
    l.dropWhile p = [] ∨ ∃ a t, l.dropWhile p = a :: t ∧ p a = false := by
  induction l with
  | nil => exact Or.inl rfl
  | cons a l ih =>
    by_cases h : p a = true
    · simpa [List.dropWhile, h] using ih
    · right
      exact ⟨a, l, by simp [List.dropWhile, h], by simpa using h⟩

theorem splitChars_ne_nil (sep : Char) (l : List Char) : splitChars sep l ≠ [] := by
  cases l with
  | nil => simp [splitChars]
  | cons c cs =>
    by_cases h : c = sep
    · simp [splitChars, h]
    · simp only [splitChars, h, if_false]
      split <;> simp

theorem splitChars_append_sep (sep : Char) (a b : List Char) :
    splitChars sep (a ++ sep :: b) = splitChars sep a ++ splitChars sep b := by
  induction a with
  | nil => simp [splitChars]
  | cons c a ih =>
    by_cases h : c = sep
    · simp [splitChars, h, ih]
    · simp only [List.cons_append, splitChars, h, if_false]
      have ih2 : splitChars sep (a.append (sep :: b)) = splitChars sep a ++ splitChars sep b := ih
      rw [ih2]
      cases hs : splitChars sep a with
      | nil => exact absurd hs (splitChars_ne_nil sep a)
      | cons p ps => simp

theorem splitChars_all_sep (sep : Char) (l : List Char) (h : ∀ c ∈ l, c = sep) :
    ∀ seg ∈ splitChars sep l, seg = [] := by
  induction l with
  | nil => simp [splitChars]
  | cons c l ih =>
    have hc : c = sep := h c (by simp)
    have hl : ∀ c ∈ l, c = sep := fun x hx => h x (by simp [hx])
    simp only [splitChars, hc, if_true, List.mem_cons]
    rintro seg (rfl | hseg)
    · rfl
    · exact ih hl seg hseg


/-- The last non-empty piece of `pre ++ seg ++ slashes` is `seg`, when `seg` is non-empty
and free of slashes, `pre` is empty or ends in a slash, and `slashes` holds only slashes. -/
theorem last_piece (q seg sls : List Char) (hseg : seg ≠ []) (hfree : '/' ∉ seg)
    (hsls : ∀ c ∈ sls, c = '/') :
    ((splitChars '/' (seg ++ sls)).filter (fun s => !s.isEmpty)).getLast? = some seg ∧
    ((splitChars '/' (q ++ '/' :: (seg ++ sls))).filter (fun s => !s.isEmpty)).getLast?
      = some seg := by
  have hne : (!seg.isEmpty) = true := by
    cases seg with
    | nil => exact absurd rfl hseg
    | cons a t => rfl
  have key : (splitChars '/' (seg ++ sls)).filter (fun s => !s.isEmpty) = [seg] := by
    cases sls with
    | nil =>
      rw [List.append_nil, splitChars_of_not_mem _ _ hfree]
      simp [hne]
    | cons c t =>
      have hc : c = '/' := hsls c (by simp)
      subst hc
      rw [splitChars_append_sep, splitChars_of_not_mem _ _ hfree, List.filter_append]
      have ht : (splitChars '/' t).filter (fun s => !s.isEmpty) = [] := by
        rw [List.filter_eq_nil_iff]
        intro s hs
        rw [splitChars_all_sep '/' t (fun x hx => hsls x (by simp [hx])) s hs]
        simp
      rw [ht]
      simp [hne]
  refine ⟨by rw [key]; rfl, ?_⟩
  rw [splitChars_append_sep, List.filter_append, key, List.getLast?_concat]

theorem filepathBase_eq_finalSegment (path : String) (h : ∃ c ∈ path.data, c ≠ '/') :
    filepathBase path = finalSegment path ∧ '/' ∉ (filepathBase path).data := by
  obtain ⟨c0, hc0, hc0n⟩ := h
  have hne : path.data ≠ [] := fun e => by rw [e] at hc0; cases hc0
  -- the reversed path is slashes, then the reversed segment, then the rest
  have e1 := List.takeWhile_append_dropWhile (fun c => decide (c = '/')) path.data.reverse
  have e2 := List.takeWhile_append_dropWhile (fun c => decide (c ≠ '/'))
    (path.data.reverse.dropWhile (fun c => decide (c = '/')))
  generalize hsl : path.data.reverse.takeWhile (fun c => decide (c = '/')) = sl at e1
  generalize hr1 : path.data.reverse.dropWhile (fun c => decide (c = '/')) = r1 at e1 e2
  generalize hsg : r1.takeWhile (fun c => decide (c ≠ '/')) = segr at e2
  generalize hpr : r1.dropWhile (fun c => decide (c ≠ '/')) = prer at e2
  have hslall : ∀ c ∈ sl.reverse, c = '/' := by
    intro c hc
    rw [List.mem_reverse, ← hsl] at hc
    simpa using List.mem_takeWhile_imp hc
  have hfree : '/' ∉ segr.reverse := by
    intro hc
    rw [List.mem_reverse, ← hsg] at hc
    simpa using List.mem_takeWhile_imp hc
  have hr1ne : ∃ a t, r1 = a :: t ∧ a ≠ '/' := by
    rcases dropWhile_cases (fun c => decide (c = '/')) path.data.reverse with h0 | ⟨a, t, h1, h2⟩
    · rw [hr1] at h0
      rw [h0, List.append_nil] at e1
      have : c0 ∈ sl := by rw [e1]; exact List.mem_reverse.mpr hc0
      have := hslall c0 (List.mem_reverse.mpr this)
      exact absurd this hc0n
    · rw [hr1] at h1
      exact ⟨a, t, h1, by simpa using h2⟩
  have hsegne : segr.reverse ≠ [] := by
    obtain ⟨a, t, hr, ha⟩ := hr1ne
    rw [← hsg, hr]
    simp [List.takeWhile, ha]
  have hpath : path.data = prer.reverse ++ (segr.reverse ++ sl.reverse) := by
    have : path.data.reverse = sl ++ (segr ++ prer) := by rw [e2, e1]
    have h2 := congrArg List.reverse this
    simpa using h2
  have hbase : filepathBase path = String.mk segr.reverse := by
    unfold filepathBase
    simp only [hne, if_false, hr1, hsg, hsegne]
  have hfinal : finalSegment path = String.mk segr.reverse := by
    unfold finalSegment
    rw [hpath]
    rcases dropWhile_cases (fun c => decide (c ≠ '/')) r1 with h0 | ⟨a, t, h1, h2⟩
    · rw [hpr] at h0
      rw [h0, List.reverse_nil, List.nil_append,
        (last_piece [] _ _ hsegne hfree hslall).1]
      rfl
    · rw [hpr] at h1
      have ha : a = '/' := by simpa using h2
      subst ha
      rw [h1, List.reverse_cons, List.append_assoc, List.singleton_append,
        (last_piece t.reverse _ _ hsegne hfree hslall).2]
      rfl
  rw [hbase, hfinal]
  exact ⟨rfl, hfree⟩

theorem filepathBase_all_slashes (path : String) (hne : path.data ≠ [])
    (h : ∀ c ∈ path.data, c = '/') : filepathBase path = "/" := by
  unfold filepathBase
  have : path.data.reverse.dropWhile (fun c => decide (c = '/')) = [] := by
    rw [List.dropWhile_eq_nil_iff]
    intro x hx
    simpa using h x (List.mem_reverse.mp hx)
  simp [hne, this]

theorem trimSuffix_ext (s : String) (h : '/' ∉ s.data) :
    trimSuffix s (filepathExt s) = stripExtension s := by
  have hall : s.data.reverse.takeWhile (fun c => decide (c ≠ '/')) = s.data.reverse := by
    rw [List.takeWhile_eq_self_iff]
    intro x hx
    have : x ≠ '/' := fun e => h (by rw [← e]; exact List.mem_reverse.mp hx)
    simpa using this
  unfold filepathExt trimSuffix stripExtension
  simp only [hall, List.mem_reverse]
  by_cases hd : '.' ∈ s.data
  · simp only [hd, if_true]
    have e := List.takeWhile_append_dropWhile (fun c => decide (c ≠ '.')) s.data.reverse
    generalize htw : s.data.reverse.takeWhile (fun c => decide (c ≠ '.')) = tw at e
    rcases dropWhile_cases (fun c => decide (c ≠ '.')) s.data.reverse with h0 | ⟨a, t, h1, h2⟩
    · rw [h0, List.append_nil] at e
      have : '.' ∈ tw := by rw [e]; exact List.mem_reverse.mpr hd
      rw [← htw] at this
      have := List.mem_takeWhile_imp this
      simp at this
    · have ha : a = '.' := by simpa using h2
      subst ha
      rw [h1] at e ⊢
      have hs : s.data = t.reverse ++ ('.' :: tw.reverse) := by
        have h2 := congrArg List.reverse e
        simpa using h2.symm
      have hsuf : ('.' :: tw.reverse).isSuffixOf s.data = true := by
        rw [List.isSuffixOf_iff_suffix, hs]
        exact List.suffix_append _ _
      simp only [hsuf, if_true, List.drop_one, List.tail_cons]
      congr 1
      rw [hs]
      apply List.take_left'
      simp
  · simp only [hd, if_false]
    cases s with
    | mk d => simp [String.length]

theorem modelName_eq (f : String) (h : (∃ c ∈ f.data, c ≠ '/') ∨ f = "") :
    modelName f = stripExtension (finalSegment f) := by
  rcases h with h | rfl
  · obtain ⟨h1, h2⟩ := filepathBase_eq_finalSegment f h
    unfold modelName
    rw [trimSuffix_ext _ h2, h1]
  · decide

theorem modelName_all_slashes (f : String) (hne : f.data ≠ [])
    (h : ∀ c ∈ f.data, c = '/') : modelName f = "/" := by
  unfold modelName
  rw [filepathBase_all_slashes f hne h]
  decide


/-- Every statement `upsertModel` sends is the model upsert carrying the derived name, in
the name column and in the provenance record, and the unchanged source path. -/
theorem upsertModel_stmt (env : Env σ) (rm : RasModel) (f : String) (c : Nat)
    (st : TxState σ) (s : Stmt σ) (r : Option Nat)
    (h : Event.stmt s r ∈ (upsertModel env rm f c st).events) :
    ∃ modelMeta, rm.metadataJSON = some modelMeta ∧
      s = .upsertModel c (modelName f) rm.Type_ f modelMeta
        { ModelName := modelName f, SourcePath := f } := by
  unfold upsertModel at h
  rcases bind_events_mem h with h | ⟨modelMeta, hm, h⟩
  · unfold marshalMetadata at h
    rw [call_events] at h
    simp at h
  · unfold marshalMetadata at hm
    have hmeta := call_ok hm
    obtain ⟨r2, hr2⟩ := exec_events env
      (.upsertModel c (modelName f) rm.Type_ f modelMeta
        { ModelName := modelName f, SourcePath := f })
      (marshalMetadata rm st : Out σ String).st
    have h2 : Event.stmt s r ∈ [Event.stmt (.upsertModel c (modelName f) rm.Type_ f modelMeta
        { ModelName := modelName f, SourcePath := f }) r2] := by
      rw [← hr2]
      exact h
    simp only [List.mem_singleton, Event.stmt.injEq] at h2
    exact ⟨modelMeta, hmeta, h2.1⟩

/-- When the metadata marshals, `upsertModel` sends exactly one statement. -/
theorem upsertModel_events (env : Env σ) (rm : RasModel) (f : String) (c : Nat)
    (st : TxState σ) (modelMeta : String) (hm : rm.metadataJSON = some modelMeta) :
    ∃ r, (upsertModel env rm f c st).events =
      [.marshalMetadata true,
        .stmt (.upsertModel c (modelName f) rm.Type_ f modelMeta
          { ModelName := modelName f, SourcePath := f }) r] := by
  have h1 : (marshalMetadata rm st : Out σ String).res = .ok modelMeta := by
    unfold marshalMetadata
    rw [hm]
    rfl
  have h2 : (marshalMetadata rm st : Out σ String).events = [.marshalMetadata true] := by
    unfold marshalMetadata
    rw [call_events, hm]
    rfl
  obtain ⟨r, hr⟩ := exec_events env
    (.upsertModel c (modelName f) rm.Type_ f modelMeta
      { ModelName := modelName f, SourcePath := f })
    (marshalMetadata rm st : Out σ String).st
  refine ⟨r, ?_⟩
  unfold upsertModel
  rw [bind_ok h1, h2]
  simp only [List.singleton_append, List.cons.injEq, true_and]
  exact hr

/-! ## The key of a cross-section in `xsIDMap` -/

theorem append_dash_inj (a b x y : List Char) (ha : '-' ∉ a) (hb : '-' ∉ b)
    (h : a ++ '-' :: x = b ++ '-' :: y) : a = b ∧ x = y := by
  induction a generalizing b with
  | nil =>
    cases b with
    | nil => simpa using h
    | cons d b =>
      simp only [List.nil_append, List.cons_append, List.cons.injEq] at h
      exact absurd (List.mem_cons_self _ _) (h.1 ▸ hb)
  | cons c a ih =>
    cases b with
    | nil =>
      simp only [List.nil_append, List.cons_append, List.cons.injEq] at h
      exact absurd (List.mem_cons_self _ _) (h.1 ▸ ha)
    | cons d b =>
      simp only [List.cons_append, List.cons.injEq] at h
      obtain ⟨e1, e2⟩ := ih b (fun m => ha (List.mem_cons_of_mem _ m))
        (fun m => hb (List.mem_cons_of_mem _ m)) h.2
      exact ⟨by rw [h.1, e1], e2⟩

/-- The composite key `label + "-" + name` determines label and name when the labels hold
no hyphen. -/
theorem key_inj (l1 n1 l2 n2 : String) (h1 : '-' ∉ l1.data) (h2 : '-' ∉ l2.data)
    (h : l1 ++ "-" ++ n1 = l2 ++ "-" ++ n2) : l1 = l2 ∧ n1 = n2 := by
  have hd := congrArg String.data h
  simp only [String.data_append, List.append_assoc] at hd
  have hd2 : l1.data ++ '-' :: n1.data = l2.data ++ '-' :: n2.data := hd
  obtain ⟨e1, e2⟩ := append_dash_inj _ _ _ _ h1 h2 hd2
  exact ⟨String.ext e1, String.ext e2⟩

/-- In a successful pass every cross-section carries a string `RiverReachName`. -/
theorem xs_labels_are_strings {env : Env σ} {g : Nat} {F : Features} {st : TxState σ}
    (h : (upsertFeatures env g F st).res = .ok ()) :
    ∀ x ∈ F.XS, ∃ l, x.field "RiverReachName" = some (.str l) := by
  obtain ⟨rm, xm, am1, am2, st1, st2, st3, st4, st5, st6, st7, _, h2, _⟩ := upsertFeatures_ok h
  intro x hx
  obtain ⟨_, _, l, _, hl, _⟩ := (addXS_ok h2).2.2.1 x hx
  exact ⟨l, hl⟩

/-- In a successful pass a bank whose key is the key of no cross-section of the file is
upserted with `xs_id` 0. -/
theorem bank_unresolved_is_zero {env : Env σ} {g : Nat} {F : Features} {st : TxState σ}
    (h : (upsertFeatures env g F st).res = .ok ()) :
    ∀ b ∈ F.Banks, ∀ n, b.field "xsName" = some (.str n) → bankKey b n ∉ F.XS.map xsKey →
      ∃ station bid, env.parseFloat b.FeatureName = some station ∧
        Event.stmt (.upsertBanks 0 station b.Geometry) (some bid)
          ∈ (upsertFeatures env g F st).events := by
  obtain ⟨rm, xm, am1, am2, st1, st2, st3, st4, st5, st6, st7, h1, h2, h3, h4, h5, h6, h7, h8,
    he⟩ := upsertFeatures_ok h
  intro b hb n hn hkey
  obtain ⟨bid, station, n2, hn2, hp, hev⟩ := (addBanks_ok h3).1 b hb
  have e : n2 = n := by
    rw [hn] at hn2
    simpa using hn2.symm
  have hget : xm.get (bankKey b n2) = 0 := by
    unfold IDMap.get
    rw [e, (addXS_ok h2).1 _ hkey]
    rfl
  rw [hget] at hev
  refine ⟨station, bid, hp, ?_⟩
  rw [he]
  exact List.mem_append_right _ (List.mem_append_right _ (List.mem_append_left _ hev))

theorem xsKey_of_label {x : VectorFeature} {l : String}
    (h : x.field "RiverReachName" = some (.str l)) : xsKey x = l ++ "-" ++ x.FeatureName := by
  unfold xsKey
  rw [h]
  rfl

theorem bankKey_of_label {b : VectorFeature} {l : String} (n : String)
    (h : b.field "RiverReachName" = some (.str l)) : bankKey b n = l ++ "-" ++ n := by
  unfold bankKey
  rw [h]
  rfl

/-- A bank whose own label holds a hyphen can hit the key of a cross-section with another
label and name: the bank ("A, r-", "1") is upserted with the identifier 6 returned for the
cross-section ("A, r", "-1"). -/
theorem hyphen_bank_hits_other_key :
    bankKey hyphenBank "1" = xsKey xsMinusOne ∧
    (upsertFeatures (envOf (demoModel hyphenBankFeatures)) 4 hyphenBankFeatures
        ⟨busyDb, false⟩).events =
      [.stmt (.upsertRivers 4 "A" "r" [1]) (some 3),
        .stmt (.upsertRivers 4 "A" "r-" [2]) (some 4),
        .parseFloat "-1" true,
        .stmt (.upsertXS 3 ⟨-1, 0⟩ none [3]) (some 6),
        .parseFloat "0.5" true,
        .stmt (.upsertBanks 6 ⟨5, 1⟩ [5]) (some 2)] := by
  refine ⟨?_, ?_⟩ <;> decide

/-! ## The statements of a pass, whatever its result -/

/-- C1: in both entry points, `upsertModelInfo` and `upsertModelGeometry`, whenever any
step of the run (collection or model-ID lookup, model construction, metadata marshalling,
geospatial-data extraction, any upsert statement, any station parse, the commit) returns an
error, the entry point returns an error, no successful commit is recorded, and the store
visible after the run is the store before the run. -/
theorem C1_failed_step_rolls_back (env : Env σ) (definitionFile : String) (db : Store σ) :
    ((∃ ev ∈ (upsertModelInfo env definitionFile db).trace, ev.failed = true) →
      (∃ e, (upsertModelInfo env definitionFile db).outcome = .err e) ∧
      Event.commit true ∉ (upsertModelInfo env definitionFile db).trace ∧
      (upsertModelInfo env definitionFile db).db = db) ∧
    ((∃ ev ∈ (upsertModelGeometry env definitionFile db).trace, ev.failed = true) →
      (∃ e, (upsertModelGeometry env definitionFile db).outcome = .err e) ∧
      Event.commit true ∉ (upsertModelGeometry env definitionFile db).trace ∧
      (upsertModelGeometry env definitionFile db).db = db) :=
  ⟨runTx_failed env db _ (post_modelInfoTx env definitionFile),
    runTx_failed env db _ (post_modelGeometryTx env definitionFile)⟩

/-- C1 at concrete runs: a model whose metadata cannot be marshalled, for
`upsertModelInfo`, and a cross-section with a non-numeric name after a river has been
written, for `upsertModelGeometry`. -/
theorem C1_failed_step_rolls_back_witness :
    ((∃ ev ∈ (upsertModelInfo (envOf unmarshallableModel) demoPath demoDb).trace,
        ev.failed = true) ∧
      (upsertModelInfo (envOf unmarshallableModel) demoPath demoDb).outcome = .err .json ∧
      (upsertModelInfo (envOf unmarshallableModel) demoPath demoDb).db = demoDb) ∧
    ((∃ ev ∈ (upsertModelGeometry (envOf (demoModel badXSFeatures)) demoPath demoDb).trace,
        ev.failed = true) ∧
      (upsertModelGeometry (envOf (demoModel badXSFeatures)) demoPath demoDb).outcome
        = .err .parseFloat ∧
      (upsertModelGeometry (envOf (demoModel badXSFeatures)) demoPath demoDb).db = demoDb) :=
  ⟨⟨by decide, by decide,
      ((C1_failed_step_rolls_back (envOf unmarshallableModel) demoPath demoDb).1
        (by decide)).2.2⟩,
    ⟨by decide, by decide,
      ((C1_failed_step_rolls_back (envOf (demoModel badXSFeatures)) demoPath demoDb).2
        (by decide)).2.2⟩⟩

/-- C2: idempotence.  When a run of `upsertModelGeometry` succeeds, a second run on the
store it leaves, with the same parsed model and the same reading of numbers (the store
and `Commit` of the second run being free to accept or refuse anything), leaves every
row of the store with the same identifier and the same natural key, in the same order;
so every table has the same natural keys and the same number of rows as after the first
run. -/
theorem C2_second_run_keeps_keys (env1 env2 : Env σ) (definitionFile : String)
    (db : Store σ) (hp : env1.parseFloat = env2.parseFloat)
    (hm : env1.newRasModel definitionFile = env2.newRasModel definitionFile)
    (hok : (upsertModelGeometry env1 definitionFile db).outcome = .ok ()) :
    (upsertModelGeometry env2 definitionFile
        (upsertModelGeometry env1 definitionFile db).db).db.skel =
      (upsertModelGeometry env1 definitionFile db).db.skel ∧
    ∀ t : Table,
      (upsertModelGeometry env2 definitionFile
          (upsertModelGeometry env1 definitionFile db).db).db.tableKeys t =
        (upsertModelGeometry env1 definitionFile db).db.tableKeys t ∧
      ((upsertModelGeometry env2 definitionFile
          (upsertModelGeometry env1 definitionFile db).db).db.tableKeys t).length =
        ((upsertModelGeometry env1 definitionFile db).db.tableKeys t).length := by
  have key : (upsertModelGeometry env2 definitionFile
        (upsertModelGeometry env1 definitionFile db).db).db.skel =
      (upsertModelGeometry env1 definitionFile db).db.skel := by
    have hsim := sim_of_rel (rel_modelGeometryTx hp definitionFile hm)
    have h1 := upsertModelGeometry_ok_db env1 definitionFile db hok
    rcases runTx_db env2 (upsertModelGeometry env1 definitionFile db).db
      (modelGeometryTx env2 definitionFile) with h2 | h2
    · unfold upsertModelGeometry at h2 ⊢
      rw [h2]
    · unfold upsertModelGeometry at h2 ⊢
      rw [h2]
      refine (hsim ⟨db, false⟩ () h1.1 ⟨_, false⟩ ?_).1
      unfold upsertModelGeometry at h1
      rw [h1.2]
      exact le_refl _
  refine ⟨key, fun t => ?_⟩
  have ht : (upsertModelGeometry env2 definitionFile
        (upsertModelGeometry env1 definitionFile db).db).db.tableKeys t =
      (upsertModelGeometry env1 definitionFile db).db.tableKeys t := by
    rw [tableKeys_eq_skel, tableKeys_eq_skel, key]
  exact ⟨ht, by rw [ht]⟩

/-- C2 at the scenario of one river, one cross-section and one bank: the first run
succeeds and adds four rows, the second run changes no identifier and no key. -/
theorem C2_second_run_keeps_keys_witness :
    (upsertModelGeometry (envOf (demoModel scenarioFeatures)) demoPath busyDb).outcome
      = .ok () ∧
    (upsertModelGeometry (envOf (demoModel scenarioFeatures)) demoPath busyDb).db.length
      = busyDb.length + 4 ∧
    (upsertModelGeometry (envOf (demoModel scenarioFeatures)) demoPath
        (upsertModelGeometry (envOf (demoModel scenarioFeatures)) demoPath busyDb).db).db.skel =
      (upsertModelGeometry (envOf (demoModel scenarioFeatures)) demoPath busyDb).db.skel :=
  ⟨by decide, by decide,
    (C2_second_run_keeps_keys (envOf (demoModel scenarioFeatures))
      (envOf (demoModel scenarioFeatures)) demoPath busyDb rfl rfl (by decide)).1⟩

/-- C3: when the transaction opens, the model row of the source path exists and the
parsed model is not geospatial, `upsertModelGeometry` performs the model-ID lookup and the
model construction only, sends no insert or update statement, returns success and leaves
the store as it was. -/
theorem C3_non_geospatial_no_writes (env : Env σ) (definitionFile : String) (db : Store σ)
    (rm : RasModel) (modelID : Nat) (hbegin : env.beginOk = true)
    (hrow : db.idOf (.model definitionFile) = some modelID)
    (hrm : env.newRasModel definitionFile = some rm) (hgeo : rm.isGeospatial = false) :
    (upsertModelGeometry env definitionFile db).outcome = .ok () ∧
      (upsertModelGeometry env definitionFile db).trace =
        [.getModelID definitionFile (some modelID), .newRasModel definitionFile true] ∧
      (∀ ev ∈ (upsertModelGeometry env definitionFile db).trace, ev.isWrite = false) ∧
      (upsertModelGeometry env definitionFile db).db = db := by
  have key : (upsertModelGeometry env definitionFile db).outcome = .ok () ∧
      (upsertModelGeometry env definitionFile db).trace =
        [.getModelID definitionFile (some modelID), .newRasModel definitionFile true] ∧
      (upsertModelGeometry env definitionFile db).db = db := by
    simp [upsertModelGeometry, runTx, hbegin, modelGeometryTx, bind_apply, getModelID,
      TxM.call, hrow, newRasModel, hrm, hgeo, pure_apply]
  refine ⟨key.1, key.2.1, ?_, key.2.2⟩
  rw [key.2.1]
  intro ev hev
  simp at hev
  rcases hev with rfl | rfl <;> rfl

/-- C3 at the model without geospatial capability. -/
theorem C3_non_geospatial_no_writes_witness :
    (upsertModelGeometry (envOf flatModel) demoPath demoDb).outcome = .ok () ∧
      (∀ ev ∈ (upsertModelGeometry (envOf flatModel) demoPath demoDb).trace,
        ev.isWrite = false) ∧
      (upsertModelGeometry (envOf flatModel) demoPath demoDb).db = demoDb :=
  have h := C3_non_geospatial_no_writes (envOf flatModel) demoPath demoDb flatModel 1
    rfl (by decide) rfl rfl
  ⟨h.1, h.2.2.1, h.2.2.2⟩

/-- C5, refuted as stated: a bank naming a cross-section the file does not have.  With
a store that accepts every statement the bank is upserted with `xs_id` 0, the run returns
success and commits; with a store that enforces foreign keys the same upsert is still
sent, and it is the store's refusal that makes the run return an error and roll back. -/
theorem C5_orphan_bank_is_upserted :
    (upsertModelGeometry (envOf (demoModel orphanFeatures)) demoPath busyDb).outcome
      = .ok () ∧
    Event.stmt (.upsertBanks 0 ⟨50, 0⟩ [3]) (some 2) ∈
      (upsertModelGeometry (envOf (demoModel orphanFeatures)) demoPath busyDb).trace ∧
    Event.commit true ∈
      (upsertModelGeometry (envOf (demoModel orphanFeatures)) demoPath busyDb).trace ∧
    (⟨2, .upsertBanks 0 ⟨50, 0⟩ [3]⟩ : Row Decimal) ∈
      (upsertModelGeometry (envOf (demoModel orphanFeatures)) demoPath busyDb).db ∧
    Event.stmt (.upsertBanks 0 ⟨50, 0⟩ [3]) none ∈
      (upsertModelGeometry (fkEnv (demoModel orphanFeatures)) demoPath busyDb).trace ∧
    (upsertModelGeometry (fkEnv (demoModel orphanFeatures)) demoPath busyDb).outcome
      = .err .sql ∧
    (upsertModelGeometry (fkEnv (demoModel orphanFeatures)) demoPath busyDb).db = busyDb := by
  refine ⟨?_, ?_, ?_, ?_, ?_, ?_, ?_⟩ <;> decide

/-- C5, amended: an unresolved parent lookup yields identifier 0 and does not abort the
pass.  Whenever the pass over the features of a geometry file returns without error,
(a) every bank whose key `RiverReachName-xsName` is the key of no cross-section of the
file has been upserted with `xs_id` 0, (b) every cross-section whose `RiverReachName` is
the name of no river of the file has been upserted with `river_id` 0, and (c) every
boundary-condition line whose `Area` is the name of no storage or 2-D area of the file has
been upserted with `area_id` 0; each of these upserts was accepted by the store. -/
theorem C5_unresolved_parent_is_zero (env : Env σ) (g : Nat) (F : Features) (st : TxState σ)
    (h : (upsertFeatures env g F st).res = .ok ()) :
    (∀ b ∈ F.Banks, ∀ n, b.field "xsName" = some (.str n) →
      bankKey b n ∉ F.XS.map xsKey →
      ∃ station bid, env.parseFloat b.FeatureName = some station ∧
        Event.stmt (.upsertBanks 0 station b.Geometry) (some bid)
          ∈ (upsertFeatures env g F st).events) ∧
    (∀ x ∈ F.XS, ∀ l, x.field "RiverReachName" = some (.str l) →
      l ∉ F.Rivers.map (fun r => r.FeatureName) →
      ∃ station xid, env.parseFloat x.FeatureName = some station ∧
        Event.stmt (.upsertXS 0 station (x.field "CutLineProfileMatch") x.Geometry) (some xid)
          ∈ (upsertFeatures env g F st).events) ∧
    (∀ c ∈ F.BCLines, ∀ a, c.field "Area" = some (.str a) →
      a ∉ (F.StorageAreas ++ F.TwoDAreas).map (fun x => x.FeatureName) →
      ∃ cid, Event.stmt (.upsertBClines 0 c.FeatureName c.Geometry) (some cid)
          ∈ (upsertFeatures env g F st).events) := by
  obtain ⟨rm, xm, am1, am2, st1, st2, st3, st4, st5, st6, st7, h1, h2, h3, h4, h5, h6, h7, h8,
    he⟩ := upsertFeatures_ok h
  refine ⟨?_, ?_, ?_⟩
  · intro b hb n hn hkey
    obtain ⟨bid, station, n2, hn2, hp, hev⟩ := (addBanks_ok h3).1 b hb
    have e : n2 = n := by
      rw [hn] at hn2
      simpa using hn2.symm
    have hget : xm.get (bankKey b n2) = 0 := by
      unfold IDMap.get
      rw [e, (addXS_ok h2).1 _ hkey]
      rfl
    rw [hget] at hev
    refine ⟨station, bid, hp, ?_⟩
    rw [he]
    exact List.mem_append_right _ (List.mem_append_right _ (List.mem_append_left _ hev))
  · intro x hx l hl hkey
    obtain ⟨xid, station, l2, hp, hl2, hev⟩ := (addXS_ok h2).2.2.1 x hx
    have e : l2 = l := by
      rw [hl] at hl2
      simpa using hl2.symm
    have hget : rm.get l2 = 0 := by
      unfold IDMap.get
      rw [e, (addRivers_ok h1).1 _ hkey]
      rfl
    rw [hget] at hev
    refine ⟨station, xid, hp, ?_⟩
    rw [he]
    exact List.mem_append_right _ (List.mem_append_left _ hev)
  · intro c hc a ha hkey
    obtain ⟨cid, a2, ha2, hev⟩ := (addBCLines_ok h8).1 c hc
    have e : a2 = a := by
      rw [ha] at ha2
      simpa using ha2.symm
    rw [e, (areas_map h4 h5 a).2 hkey] at hev
    refine ⟨cid, ?_⟩
    rw [he]
    simp only [List.mem_append]
    exact Or.inr (Or.inr (Or.inr (Or.inr (Or.inr (Or.inr (Or.inr hev))))))

/-- C5, amended, at the file with a bank of an absent cross-section. -/
theorem C5_unresolved_parent_is_zero_witness :
    (upsertFeatures (envOf (demoModel orphanFeatures)) 4 orphanFeatures ⟨busyDb, false⟩).res
      = .ok () ∧
    ∃ station bid, parseDecimal orphanBank.FeatureName = some station ∧
      Event.stmt (.upsertBanks 0 station orphanBank.Geometry) (some bid) ∈
        (upsertFeatures (envOf (demoModel orphanFeatures)) 4 orphanFeatures
          ⟨busyDb, false⟩).events :=
  ⟨by decide,
    (C5_unresolved_parent_is_zero (envOf (demoModel orphanFeatures)) 4 orphanFeatures
      ⟨busyDb, false⟩ (by decide)).1 orphanBank (by decide) "200.0" (by decide) (by decide)⟩

/-- C6: every boundary-condition line statement sent during the pass over the features of
a geometry file, whatever the result of the pass, is the upsert of one of the file's
lines, and when that line's `Area` is the `FeatureName` of a storage area or 2-D area of
the file, its `area_id` is the identifier returned by the upsert of the area of that name
(every upsert of that name in the file returned that identifier).  In the file with
storage area "A", 2-D area "B" and a line on area "A", the upserts of "A" and "B" return
1 and 2 and the line is upserted with `area_id` 1. -/
theorem C6_boundary_line_area :
    (∀ (env : Env σ) (g : Nat) (F : Features) (st : TxState σ) (areaID : Nat) (n : String)
      (geo : Geometry) (r : Option Nat),
      Event.stmt (.upsertBClines areaID n geo) r ∈ (upsertFeatures env g F st).events →
      ∃ b ∈ F.BCLines, ∃ a, b.field "Area" = some (.str a) ∧ n = b.FeatureName ∧
        geo = b.Geometry ∧
        (a ∈ (F.StorageAreas ++ F.TwoDAreas).map (fun x => x.FeatureName) →
          (∃ is2d geom, Event.stmt (.upsertAreas g a is2d geom) (some areaID)
            ∈ (upsertFeatures env g F st).events) ∧
          ∀ is2d geom j, Event.stmt (.upsertAreas g a is2d geom) (some j)
            ∈ (upsertFeatures env g F st).events → j = areaID)) ∧
    (upsertModelGeometry (envOf (demoModel areaFeatures)) demoPath busyDb).trace =
      [.getModelID demoPath (some 1), .newRasModel demoPath true, .geospatialData true,
        .stmt (.upsertGeometry 1 "/models/demo/demo.g01" ".g01" "Existing"
          (.nullFloat { Float64 := 0, Valid := false }) "") (some 4),
        .stmt (.upsertAreas 4 "A" false [1]) (some 1),
        .stmt (.upsertAreas 4 "B" true [2]) (some 2),
        .stmt (.upsertBClines 1 "inflow" [3]) (some 1),
        .commit true] := by
  refine ⟨?_, by decide⟩
  intro env g F st areaID n geo r h
  obtain ⟨b, hb, a, ha, hn, hgeo, hin, _⟩ := bcline_origin env g F st areaID n geo r h
  exact ⟨b, hb, a, ha, hn, hgeo, hin⟩

/-- C6 at the file with storage area "A", 2-D area "B" and a line on area "A": the
line's statement carries the identifier returned for "A". -/
theorem C6_boundary_line_area_witness :
    Event.stmt (.upsertBClines 1 "inflow" [3]) (some 1) ∈
      (upsertFeatures (envOf (demoModel areaFeatures)) 4 areaFeatures ⟨busyDb, false⟩).events ∧
    ∃ b ∈ areaFeatures.BCLines, ∃ a, b.field "Area" = some (.str a) ∧ "inflow" = b.FeatureName ∧
      [3] = b.Geometry ∧
      (a ∈ (areaFeatures.StorageAreas ++ areaFeatures.TwoDAreas).map (fun x => x.FeatureName) →
        (∃ is2d geom, Event.stmt (.upsertAreas 4 a is2d geom) (some 1)
          ∈ (upsertFeatures (envOf (demoModel areaFeatures)) 4 areaFeatures
              ⟨busyDb, false⟩).events) ∧
        ∀ is2d geom j, Event.stmt (.upsertAreas 4 a is2d geom) (some j)
          ∈ (upsertFeatures (envOf (demoModel areaFeatures)) 4 areaFeatures
              ⟨busyDb, false⟩).events → j = 1) :=
  ⟨by decide,
    C6_boundary_line_area.1 (envOf (demoModel areaFeatures)) 4 areaFeatures ⟨busyDb, false⟩
      1 "inflow" [3] (some 1) (by decide)⟩

/-- C7, refuted as stated: cross-sections "-1" on reach "A, r" and "1" on reach "A, r-"
are both filed under the key "A, r--1".  Every statement succeeds and the run commits;
the upsert of "-1" on "A, r" returns 6, yet the bank whose `RiverReachName` is "A, r" and
whose `xsName` is "-1" is upserted with `xs_id` 7, the identifier returned for the other
cross-section. -/
theorem C7_bank_takes_other_cross_section :
    bankOfMinusOne.field "RiverReachName" = xsMinusOne.field "RiverReachName" ∧
    bankOfMinusOne.field "xsName" = some (.str xsMinusOne.FeatureName) ∧
    (upsertModelGeometry (envOf (demoModel hyphenFeatures)) demoPath busyDb).outcome
      = .ok () ∧
    (upsertModelGeometry (envOf (demoModel hyphenFeatures)) demoPath busyDb).trace =
      [.getModelID demoPath (some 1), .newRasModel demoPath true, .geospatialData true,
        .stmt (.upsertGeometry 1 "/models/demo/demo.g01" ".g01" "Existing"
          (.nullFloat { Float64 := 0, Valid := false }) "") (some 4),
        .stmt (.upsertRivers 4 "A" "r" [1]) (some 3),
        .stmt (.upsertRivers 4 "A" "r-" [2]) (some 4),
        .parseFloat "-1" true,
        .stmt (.upsertXS 3 ⟨-1, 0⟩ none [3]) (some 6),
        .parseFloat "1" true,
        .stmt (.upsertXS 4 ⟨1, 0⟩ none [4]) (some 7),
        .parseFloat "0.5" true,
        .stmt (.upsertBanks 7 ⟨5, 1⟩ [5]) (some 2),
        .commit true] := by
  refine ⟨?_, ?_, ?_, ?_⟩ <;> decide

/-- C7, amended: parent identifiers are threaded through river, cross-section and bank.
Whenever the pass over the features of a geometry file returns without error, each
cross-section whose `RiverReachName` is the unsplit `FeatureName` of a river of the file
is upserted with `river_id` the identifier returned by that river's upsert, and each bank
whose `RiverReachName` and `xsName` are those of a cross-section of the file is upserted
with `xs_id` the identifier returned by that cross-section's upsert, provided no
cross-section of the file with another `RiverReachName` or name is filed under the same
key `RiverReachName-FeatureName`.  In the scenario of river "Main River, Reach 1",
cross-section "100.0" and bank "50.0", exactly one river upsert ("Main River",
"Reach 1"), one cross-section upsert (station 100, parent the river's identifier 3) and
one bank upsert (station 50, parent the cross-section's identifier 6) are sent, and the
transaction commits. -/
theorem C7_parent_ids_threaded :
    (∀ (env : Env σ) (g : Nat) (F : Features) (st : TxState σ),
      (upsertFeatures env g F st).res = .ok () →
      (∀ x ∈ F.XS, ∀ r ∈ F.Rivers, x.field "RiverReachName" = some (.str r.FeatureName) →
        ∃ i s station xid, riverStmt g r = some s ∧
          Event.stmt s (some i) ∈ (upsertFeatures env g F st).events ∧
          (∀ j, Event.stmt s (some j) ∈ (upsertFeatures env g F st).events → j = i) ∧
          env.parseFloat x.FeatureName = some station ∧
          Event.stmt (.upsertXS i station (x.field "CutLineProfileMatch") x.Geometry)
            (some xid) ∈ (upsertFeatures env g F st).events) ∧
      (∀ b ∈ F.Banks, ∀ x ∈ F.XS, b.field "RiverReachName" = x.field "RiverReachName" →
        b.field "xsName" = some (.str x.FeatureName) →
        (∀ y ∈ F.XS, xsKey y = xsKey x →
          y.field "RiverReachName" = x.field "RiverReachName" ∧
            y.FeatureName = x.FeatureName) →
        ∃ riverID station i bankStation bid,
          env.parseFloat x.FeatureName = some station ∧
          Event.stmt (.upsertXS riverID station (x.field "CutLineProfileMatch") x.Geometry)
            (some i) ∈ (upsertFeatures env g F st).events ∧
          (∀ c geom j, Event.stmt (.upsertXS riverID station c geom) (some j)
            ∈ (upsertFeatures env g F st).events → j = i) ∧
          env.parseFloat b.FeatureName = some bankStation ∧
          Event.stmt (.upsertBanks i bankStation b.Geometry) (some bid)
            ∈ (upsertFeatures env g F st).events)) ∧
    ((upsertModelGeometry (envOf (demoModel scenarioFeatures)) demoPath busyDb).outcome
        = .ok () ∧
      (upsertModelGeometry (envOf (demoModel scenarioFeatures)) demoPath busyDb).trace =
        [.getModelID demoPath (some 1), .newRasModel demoPath true, .geospatialData true,
          .stmt (.upsertGeometry 1 "/models/demo/demo.g01" ".g01" "Existing"
            (.nullFloat { Float64 := 0, Valid := false }) "") (some 4),
          .stmt (.upsertRivers 4 "Main River" "Reach 1" [1]) (some 3),
          .parseFloat "100.0" true,
          .stmt (.upsertXS 3 ⟨100, 0⟩ none [2]) (some 6),
          .parseFloat "50.0" true,
          .stmt (.upsertBanks 6 ⟨50, 0⟩ [3]) (some 2),
          .commit true] ∧
      (upsertModelGeometry (envOf (demoModel scenarioFeatures)) demoPath busyDb).db =
        busyDb ++
          [⟨4, .upsertGeometry 1 "/models/demo/demo.g01" ".g01" "Existing"
              (.nullFloat { Float64 := 0, Valid := false }) ""⟩,
            ⟨3, .upsertRivers 4 "Main River" "Reach 1" [1]⟩,
            ⟨6, .upsertXS 3 ⟨100, 0⟩ none [2]⟩,
            ⟨2, .upsertBanks 6 ⟨50, 0⟩ [3]⟩]) := by
  refine ⟨fun env g F st h => ⟨xs_parent_is_river h, bank_parent_is_xs h⟩, ?_, ?_, ?_⟩ <;>
    decide

/-- C7, amended, at the scenario: the bank "50.0" is upserted with the identifier
returned for cross-section "100.0". -/
theorem C7_parent_ids_threaded_witness :
    (upsertFeatures (envOf (demoModel scenarioFeatures)) 4 scenarioFeatures
        ⟨busyDb, false⟩).res = .ok () ∧
    ∃ riverID station i bankStation bid,
      parseDecimal xs100.FeatureName = some station ∧
      Event.stmt (.upsertXS riverID station (xs100.field "CutLineProfileMatch") xs100.Geometry)
        (some i) ∈ (upsertFeatures (envOf (demoModel scenarioFeatures)) 4 scenarioFeatures
          ⟨busyDb, false⟩).events ∧
      (∀ c geom j, Event.stmt (.upsertXS riverID station c geom) (some j)
        ∈ (upsertFeatures (envOf (demoModel scenarioFeatures)) 4 scenarioFeatures
          ⟨busyDb, false⟩).events → j = i) ∧
      parseDecimal bank50.FeatureName = some bankStation ∧
      Event.stmt (.upsertBanks i bankStation bank50.Geometry) (some bid)
        ∈ (upsertFeatures (envOf (demoModel scenarioFeatures)) 4 scenarioFeatures
          ⟨busyDb, false⟩).events :=
  ⟨by decide,
    ((C7_parent_ids_threaded.1 (envOf (demoModel scenarioFeatures)) 4 scenarioFeatures
      ⟨busyDb, false⟩ (by decide)).2 bank50 (by decide) xs100 (by decide) (by decide)
      (by decide) (by decide))⟩

/-- C9: the version argument of the geometry-file upsert is a SQL NULL exactly when the
descriptor's `ProgramVersion` is the empty string, in which case it is the invalid
`NullFloat64` (not a string, not a valid zero); otherwise it is `ProgramVersion` itself.
The upsert is the first step of the file's pass whatever the version, and it returns an
error only when the store refuses the statement. -/
theorem C9_program_version_argument (env : Env σ) (modelID : Nat)
    (geodata : List (String × Features)) (gf : GeometryFile) (st : TxState σ) :
    ((versionArg gf.ProgramVersion).isNull = true ↔ gf.ProgramVersion = "") ∧
    (gf.ProgramVersion = "" →
      versionArg gf.ProgramVersion = .nullFloat { Float64 := 0, Valid := false }) ∧
    (gf.ProgramVersion ≠ "" → versionArg gf.ProgramVersion = .str gf.ProgramVersion) ∧
    (∃ res, (upsertGeometryFile env modelID geodata gf st).events.head? =
        some (.stmt (.upsertGeometry modelID gf.Path gf.FileExt gf.GeomTitle
          (versionArg gf.ProgramVersion) gf.Description) res) ∧
      (res = none ↔ env.rejects st.store (.upsertGeometry modelID gf.Path gf.FileExt
          gf.GeomTitle (versionArg gf.ProgramVersion) gf.Description) = true)) := by
  refine ⟨?_, ?_, ?_, ?_⟩
  · by_cases h : gf.ProgramVersion = "" <;> simp [versionArg, h, VersionArg.isNull]
  · intro h; simp [versionArg, h]
  · intro h; simp [versionArg, h]
  · by_cases h : env.rejects st.store (geometryStmt modelID gf) = true
    · have he := exec_of_rejects env _ st h
      refine ⟨none, ?_, by simpa [geometryStmt] using h⟩
      unfold upsertGeometryFile
      have hres : (exec env (geometryStmt modelID gf) st).res = .err .sql := by rw [he]
      rw [bind_err hres, he]
      rfl
    · have he := exec_of_accepts env _ st h
      refine ⟨some (st.store.upsert (geometryStmt modelID gf)).2, ?_, ?_⟩
      · unfold upsertGeometryFile
        have hres : (exec env (geometryStmt modelID gf) st).res =
            .ok (st.store.upsert (geometryStmt modelID gf)).2 := by rw [he]
        rw [bind_ok hres, he]
        rfl
      · simpa [geometryStmt] using h

/-- C9 at the example geometry file, whose program version is empty: the statement sent
carries the invalid `NullFloat64` and succeeds. -/
theorem C9_program_version_argument_witness :
    versionArg demoGeom.ProgramVersion = .nullFloat { Float64 := 0, Valid := false } ∧
    (upsertGeometryFile (envOf (demoModel {})) 1 [] demoGeom ⟨demoDb, false⟩).events.head? =
      some (.stmt (.upsertGeometry 1 "/models/demo/demo.g01" ".g01" "Existing"
        (.nullFloat { Float64 := 0, Valid := false }) "") (some 1)) :=
  ⟨(C9_program_version_argument (envOf (demoModel {})) 1 [] demoGeom ⟨demoDb, false⟩).2.1 rfl,
    by decide⟩

/-- C10, the code at a river named "Main River": `upsertRiver` panics instead of
returning an error, and so does the `upsertModelGeometry` run, after the geometry-file
upsert; nothing is committed. -/
theorem C10_commaless_river_panics :
    (upsertRiver (envOf (demoModel loneCommalessRiver)) commalessRiver 1
        ⟨demoDb, false⟩).res = .crash ∧
    (upsertRiver (envOf (demoModel loneCommalessRiver)) commalessRiver 1
        ⟨demoDb, false⟩).events = [] ∧
    (upsertModelGeometry (envOf (demoModel loneCommalessRiver)) demoPath demoDb).outcome
      = .crash ∧
    (upsertModelGeometry (envOf (demoModel loneCommalessRiver)) demoPath demoDb).trace =
      [.getModelID demoPath (some 1), .newRasModel demoPath true, .geospatialData true,
        .stmt (.upsertGeometry 1 "/models/demo/demo.g01" ".g01" "Existing"
          (.nullFloat { Float64 := 0, Valid := false }) "") (some 1)] ∧
    (upsertModelGeometry (envOf (demoModel loneCommalessRiver)) demoPath demoDb).db
      = demoDb := by
  refine ⟨?_, ?_, ?_, ?_, ?_⟩ <;> decide

/-- C4, the code at a geometry file with the river "Main River" and a cross-section
named "weir": the run panics in `upsertRiver` before the cross-section is reached, so no
error is returned; nothing is committed and the store is unchanged. -/
theorem C4_panic_before_bad_cross_section :
    parseDecimal xsNamed.FeatureName = none ∧
    (upsertModelGeometry (envOf (demoModel commalessFeatures)) demoPath demoDb).outcome
      = .crash ∧
    Event.commit true ∉
      (upsertModelGeometry (envOf (demoModel commalessFeatures)) demoPath demoDb).trace ∧
    (upsertModelGeometry (envOf (demoModel commalessFeatures)) demoPath demoDb).db
      = demoDb := by
  refine ⟨?_, ?_, ?_, ?_⟩ <;> decide

/-- C11, refuted as stated: at the source path "/" the name `upsertModel` writes, in the
name column and in the provenance record, is "/", while the final path segment of "/"
with its extension removed is empty. -/
theorem C11_slash_path_is_named_slash :
    (upsertModel (envOf plainModel) plainModel "/" 7 ⟨[], false⟩).events =
      [.marshalMetadata true,
        .stmt (.upsertModel 7 "/" "RAS" "/" "\x7b\x7d" { ModelName := "/", SourcePath := "/" })
          (some 1)] ∧
    stripExtension (finalSegment "/") = "" := by
  refine ⟨?_, ?_⟩ <;> decide

/-- C11, amended: every statement `upsertModel` sends is the model upsert whose name
column and whose `model_name` in the provenance record both hold the derived name, whose
key is the unchanged source path, and one such statement is sent whenever the metadata
marshals.  For every source path that holds a character other than "/", and for the
empty path, the derived name is the final path segment of the path (the last non-empty
piece between slashes) with its file extension, the suffix starting at the last dot of the
segment, removed; for a path made only of slashes it is "/".  The path
"/models/ras/CHURCH HOUSE GULLY/CHURCH HOUSE GULLY.prj" yields "CHURCH HOUSE GULLY". -/
theorem C11_model_name_from_path :
    (∀ (env : Env σ) (rm : RasModel) (f : String) (c : Nat) (st : TxState σ),
      (∀ s r, Event.stmt s r ∈ (upsertModel env rm f c st).events →
        (∃ modelMeta, s = .upsertModel c (modelName f) rm.Type_ f modelMeta
          { ModelName := modelName f, SourcePath := f }) ∧ s.key = .model f) ∧
      (∀ modelMeta, rm.metadataJSON = some modelMeta →
        ∃ r, (upsertModel env rm f c st).events =
          [.marshalMetadata true,
            .stmt (.upsertModel c (modelName f) rm.Type_ f modelMeta
              { ModelName := modelName f, SourcePath := f }) r])) ∧
    (∀ f : String, ((∃ ch ∈ f.data, ch ≠ '/') ∨ f = "") →
      modelName f = stripExtension (finalSegment f)) ∧
    (∀ f : String, f.data ≠ [] → (∀ ch ∈ f.data, ch = '/') → modelName f = "/") ∧
    modelName churchPath = "CHURCH HOUSE GULLY" ∧
    (upsertModel (envOf plainModel) plainModel churchPath 7 ⟨[], false⟩).events =
      [.marshalMetadata true,
        .stmt (.upsertModel 7 "CHURCH HOUSE GULLY" "RAS" churchPath "\x7b\x7d"
          { ModelName := "CHURCH HOUSE GULLY", SourcePath := churchPath }) (some 1)] := by
  refine ⟨fun env rm f c st => ⟨fun s r h => ?_, fun modelMeta hm =>
    upsertModel_events env rm f c st modelMeta hm⟩, modelName_eq, modelName_all_slashes,
    by decide, by decide⟩
  obtain ⟨modelMeta, _, hs⟩ := upsertModel_stmt env rm f c st s r h
  exact ⟨⟨modelMeta, hs⟩, by rw [hs]; rfl⟩

/-- C11, amended, at the documented example path: it holds a character other than "/",
and its derived name is its final segment without the extension. -/
theorem C11_model_name_from_path_witness :
    (∃ ch ∈ churchPath.data, ch ≠ '/') ∧
    modelName churchPath = stripExtension (finalSegment churchPath) ∧
    stripExtension (finalSegment churchPath) = "CHURCH HOUSE GULLY" :=
  ⟨by decide, (@C11_model_name_from_path Decimal _).2.1 churchPath (Or.inl (by decide)),
    by decide⟩

/-- C12: the key `RiverReachName + "-" + FeatureName` is injective on labels without a
hyphen.  Two labels without hyphen and two names with the same key are equal; hence two
cross-sections whose string `RiverReachName` values hold no hyphen and whose pairs
(`RiverReachName`, `FeatureName`) differ are filed under different keys of `xsIDMap`.
Whenever the pass over the features of a geometry file returns without error and no
`RiverReachName` of its cross-sections holds a hyphen, a bank whose `RiverReachName` and
`xsName` are those of a cross-section of the file is upserted with the identifier
returned by that cross-section's upsert, and a bank whose `RiverReachName` holds no hyphen
and whose pair is that of no cross-section of the file resolves to no cross-section: it is
upserted with `xs_id` 0. -/
theorem C12_key_injective_without_hyphen :
    (∀ l1 n1 l2 n2 : String, '-' ∉ l1.data → '-' ∉ l2.data →
      l1 ++ "-" ++ n1 = l2 ++ "-" ++ n2 → l1 = l2 ∧ n1 = n2) ∧
    (∀ (x y : VectorFeature) (lx ly : String),
      x.field "RiverReachName" = some (.str lx) → y.field "RiverReachName" = some (.str ly) →
      '-' ∉ lx.data → '-' ∉ ly.data → (lx, x.FeatureName) ≠ (ly, y.FeatureName) →
      xsKey x ≠ xsKey y) ∧
    (∀ (env : Env σ) (g : Nat) (F : Features) (st : TxState σ),
      (upsertFeatures env g F st).res = .ok () →
      (∀ x ∈ F.XS, ∀ l, x.field "RiverReachName" = some (.str l) → '-' ∉ l.data) →
      ∀ b ∈ F.Banks, ∀ lb n, b.field "RiverReachName" = some (.str lb) →
        b.field "xsName" = some (.str n) →
        (∀ x ∈ F.XS, x.field "RiverReachName" = some (.str lb) → x.FeatureName = n →
          ∃ riverID station i bankStation bid,
            env.parseFloat x.FeatureName = some station ∧
            Event.stmt (.upsertXS riverID station (x.field "CutLineProfileMatch") x.Geometry)
              (some i) ∈ (upsertFeatures env g F st).events ∧
            (∀ c geom j, Event.stmt (.upsertXS riverID station c geom) (some j)
              ∈ (upsertFeatures env g F st).events → j = i) ∧
            env.parseFloat b.FeatureName = some bankStation ∧
            Event.stmt (.upsertBanks i bankStation b.Geometry) (some bid)
              ∈ (upsertFeatures env g F st).events) ∧
        ('-' ∉ lb.data →
          (∀ x ∈ F.XS, x.field "RiverReachName" = some (.str lb) → x.FeatureName ≠ n) →
          ∃ bankStation bid, env.parseFloat b.FeatureName = some bankStation ∧
            Event.stmt (.upsertBanks 0 bankStation b.Geometry) (some bid)
              ∈ (upsertFeatures env g F st).events)) := by
  refine ⟨key_inj, ?_, ?_⟩
  · intro x y lx ly hx hy h1 h2 hne hk
    rw [xsKey_of_label hx, xsKey_of_label hy] at hk
    obtain ⟨e1, e2⟩ := key_inj _ _ _ _ h1 h2 hk
    exact hne (by rw [e1, e2])
  · intro env g F st h hfree b hb lb n hlb hn
    constructor
    · intro x hx hxl hxn
      refine bank_parent_is_xs h b hb x hx (by rw [hlb, hxl]) (by rw [hn, hxn]) ?_
      intro y hy hky
      obtain ⟨ly, hly⟩ := xs_labels_are_strings h y hy
      rw [xsKey_of_label hly, xsKey_of_label hxl] at hky
      obtain ⟨e1, e2⟩ := key_inj _ _ _ _ (hfree y hy ly hly) (hfree x hx lb hxl) hky
      exact ⟨by rw [hly, hxl, e1], e2⟩
    · intro hlbfree hnone
      refine bank_unresolved_is_zero h b hb n hn ?_
      intro hmem
      obtain ⟨y, hy, hky⟩ := List.mem_map.mp hmem
      obtain ⟨ly, hly⟩ := xs_labels_are_strings h y hy
      rw [xsKey_of_label hly, bankKey_of_label n hlb] at hky
      obtain ⟨e1, e2⟩ := key_inj _ _ _ _ (hfree y hy ly hly) hlbfree hky
      exact hnone y hy (by rw [hly, e1]) e2

/-- C12 at the scenario of river "Main River, Reach 1", cross-section "100.0" and bank
"50.0": no label holds a hyphen and the bank is upserted with the identifier returned for
the cross-section. -/
theorem C12_key_injective_without_hyphen_witness :
    (upsertFeatures (envOf (demoModel scenarioFeatures)) 4 scenarioFeatures
        ⟨busyDb, false⟩).res = .ok () ∧
    (∀ x ∈ scenarioFeatures.XS, ∀ l, x.field "RiverReachName" = some (.str l) →
      '-' ∉ l.data) ∧
    ∃ riverID station i bankStation bid,
      parseDecimal xs100.FeatureName = some station ∧
      Event.stmt (.upsertXS riverID station (xs100.field "CutLineProfileMatch") xs100.Geometry)
        (some i) ∈ (upsertFeatures (envOf (demoModel scenarioFeatures)) 4 scenarioFeatures
          ⟨busyDb, false⟩).events ∧
      (∀ c geom j, Event.stmt (.upsertXS riverID station c geom) (some j)
        ∈ (upsertFeatures (envOf (demoModel scenarioFeatures)) 4 scenarioFeatures
          ⟨busyDb, false⟩).events → j = i) ∧
      parseDecimal bank50.FeatureName = some bankStation ∧
      Event.stmt (.upsertBanks i bankStation bank50.Geometry) (some bid)
        ∈ (upsertFeatures (envOf (demoModel scenarioFeatures)) 4 scenarioFeatures
          ⟨busyDb, false⟩).events :=
  have hfree : ∀ x ∈ scenarioFeatures.XS, ∀ l,
      x.field "RiverReachName" = some (.str l) → '-' ∉ l.data := by
    intro x hx l hl
    have hx2 : x = xs100 := by simpa [scenarioFeatures] using hx
    subst hx2
    have hl2 : l = "Main River, Reach 1" := by
      have : xs100.field "RiverReachName" = some (.str "Main River, Reach 1") := by decide
      rw [this] at hl
      simpa using hl.symm
    subst hl2
    decide
  ⟨by decide, hfree,
    (C12_key_injective_without_hyphen.2.2 (envOf (demoModel scenarioFeatures)) 4
      scenarioFeatures ⟨busyDb, false⟩ (by decide) hfree bank50 (by decide)
      "Main River, Reach 1" "100.0" (by decide) (by decide)).1 xs100 (by decide) (by decide)
      (by decide)⟩

end Lemmas

end McatRas
